import Mathlib

/-!
# thrift-gen driver and the generated `HealthCheckRes` codec

A shallow embedding of

* `thrift/thrift-gen/main.go`: `processFile`, `generateCode`, `packageName`,
  `cleanGeneratedCode`;
* `examples/thrift/gen-go/example/ttypes.go`: `HealthCheckRes.Read` and
  `HealthCheckRes.Write` with their field helpers.

Go strings that hold paths are lists of Unicode code points (`Str`), file
contents are lists of bytes (`Bytes`), and a Go `error` is its message.
Side effects of the driver (directory creation, the upstream compiler, the
parser, the template, the file write, gofmt) are answered by a `World` and
recorded, in program order, in a list of `Event`s.
-/

namespace ThriftGen

/-! ## Byte strings and `cleanGeneratedCode` -/

abbrev Bytes := List UInt8

abbrev Str := List Char

abbrev GoError := String

/-- The character class `[ \t]` of the pattern `nlSpaceNL`. -/
def isSpaceTab (b : UInt8) : Bool := b == 32 || b == 9

/-- Anchored match of the regular expression `nlSpaceNL`, that is `\n[ \t]+\n`, at the
head of the input: a newline, a non-empty maximal run of spaces and tabs, a newline.
Returns the input that follows the match. -/
def matchNlSpaceNL : Bytes → Option Bytes
  | [] => none
  | b :: rest =>
    if b = 10 then
      if (rest.takeWhile isSpaceTab).isEmpty then none
      else
        match rest.dropWhile isSpaceTab with
        | c :: after => if c = 10 then some after else none
        | [] => none
    else none

/-- The call `nlSpaceNL.ReplaceAll(generated, []byte("\n"))`: scanning from the left, each
leftmost match is replaced by one newline and the scan resumes right after the match, so
matches never overlap; a byte at which no match starts is copied. The fuel bounds the
number of steps and is the input length in `cleanGeneratedCode`. -/
def replaceAllNlSpaceNL : Nat → Bytes → Bytes
  | 0, _ => []
  | _ + 1, [] => []
  | fuel + 1, b :: rest =>
    match matchNlSpaceNL (b :: rest) with
    | some after => 10 :: replaceAllNlSpaceNL fuel after
    | none => b :: replaceAllNlSpaceNL fuel rest

/-- Source: `cleanGeneratedCode` in `thrift/thrift-gen/main.go`. -/
def cleanGeneratedCode (generated : Bytes) : Bytes :=
  replaceAllNlSpaceNL generated.length generated

/-- Splitting a byte string on newlines, as `bytes.Split(g, "\n")` does: a string with
`n` newlines has `n + 1` lines. -/
def splitLines : Bytes → List Bytes
  | [] => [[]]
  | b :: rest =>
    if b = 10 then [] :: splitLines rest
    else
      match splitLines rest with
      | l :: ls => (b :: l) :: ls
      | [] => [[b]]

/-- A whitespace-only line: non-empty and made of spaces and tabs only. -/
def IsBlankLine (l : Bytes) : Prop := l ≠ [] ∧ ∀ b ∈ l, b = 32 ∨ b = 9

instance instDecidableIsBlankLine (l : Bytes) : Decidable (IsBlankLine l) := by
  unfold IsBlankLine; infer_instance

/-- The second list of lines arises from the first by deleting whitespace-only lines:
every other line is kept, with its content, in order. -/
inductive OnlyBlankLinesDropped : List Bytes → List Bytes → Prop
  | done : OnlyBlankLinesDropped [] []
  | keep (l : Bytes) {xs ys : List Bytes} :
      OnlyBlankLinesDropped xs ys → OnlyBlankLinesDropped (l :: xs) (l :: ys)
  | drop (l : Bytes) {xs ys : List Bytes} :
      IsBlankLine l → OnlyBlankLinesDropped xs ys → OnlyBlankLinesDropped (l :: xs) ys

/-- The byte string has an occurrence of a newline, one or more spaces or tabs, and a
newline: the pattern `\n[ \t]+\n` matches somewhere. -/
def ContainsNlSpaceNL (g : Bytes) : Prop :=
  ∃ pre ws post, g = pre ++ 10 :: (ws ++ 10 :: post) ∧ ws ≠ [] ∧ ∀ b ∈ ws, b = 32 ∨ b = 9

/-! ## Paths: `packageName` and `filepath.Join` -/

/-- Go `filepath.Split` with `/` as separator: the path up to and including the final
separator, and what follows it. -/
def Split (path : Str) : Str × Str :=
  ((path.reverse.dropWhile (fun c => c != '/')).reverse,
   (path.reverse.takeWhile (fun c => c != '/')).reverse)

/-- Go `filepath.Ext`: the suffix that starts at the final dot of the final path element,
empty when that element has no dot. -/
def Ext (path : Str) : Str :=
  let last := path.reverse.takeWhile (fun c => c != '/')
  if '.' ∈ last then (last.takeWhile (fun c => c != '.') ++ ['.']).reverse else []

/-- Go `strings.TrimSuffix`. -/
def TrimSuffix (s suffix : Str) : Str :=
  if suffix.isSuffixOf s then s.take (s.length - suffix.length) else s

/-- Go `strings.ToLower`: every code point is mapped by the Unicode lower-case table,
which is the argument `lowerRune`. -/
def ToLower (lowerRune : Char → Char) (s : Str) : Str := s.map lowerRune

/-- Source: `packageName` in `thrift/thrift-gen/main.go`. -/
def packageName (lowerRune : Char → Char) (fullPath : Str) : Str :=
  let filename := (Split fullPath).2
  let file := TrimSuffix filename (Ext filename)
  ToLower lowerRune file

/-- Inner loop of the `..` case of `filepath.Clean`: the buffer is held reversed, `removed`
is the byte at the write index; bytes are dropped until the write index reaches `dotdot`
or the byte at the write index is a separator. -/
def backtrackLoop (dotdot : Nat) : Char → List Char → List Char
  | _, [] => []
  | removed, c :: r =>
    if (c :: r).length > dotdot ∧ removed ≠ '/' then backtrackLoop dotdot c r else c :: r

/-- The `..` case of `filepath.Clean` when it can backtrack: remove the last element. -/
def backtrack (dotdot : Nat) (out : Str) : Str :=
  match out.reverse with
  | [] => []
  | c :: r => (backtrackLoop dotdot c r).reverse

/-- Main loop of Go `filepath.Clean`: `out` is the buffer written so far, `dotdot` the
index below which `..` may not remove. -/
def cleanLoop (rooted : Bool) : Nat → Str → Str → Nat → Str
  | 0, _, out, _ => out
  | _ + 1, [], out, _ => out
  | fuel + 1, c :: rest, out, dotdot =>
    if c = '/' then cleanLoop rooted fuel rest out dotdot
    else if c = '.' ∧ (rest = [] ∨ rest.head? = some '/') then
      cleanLoop rooted fuel rest out dotdot
    else if c = '.' ∧ rest.head? = some '.' ∧ (rest.tail = [] ∨ rest.tail.head? = some '/') then
      if out.length > dotdot then cleanLoop rooted fuel rest.tail (backtrack dotdot out) dotdot
      else if !rooted then
        let out2 := (if out.length > 0 then out ++ ['/'] else out) ++ ['.', '.']
        cleanLoop rooted fuel rest.tail out2 out2.length
      else cleanLoop rooted fuel rest.tail out dotdot
    else
      let out1 := if (rooted && out.length != 1) || (!rooted && out.length != 0)
        then out ++ ['/'] else out
      cleanLoop rooted fuel ((c :: rest).dropWhile (fun x => x != '/'))
        (out1 ++ (c :: rest).takeWhile (fun x => x != '/')) dotdot

/-- Go `filepath.Clean` with `/` as separator and no volume name. -/
def Clean (path : Str) : Str :=
  if path = [] then ['.']
  else
    let rooted := path.head? = some '/'
    let out := if rooted
      then cleanLoop true path.length path.tail ['/'] 1
      else cleanLoop false path.length path [] 0
    if out = [] then ['.'] else out

/-- Go `filepath.Join`: leading empty elements are ignored, the rest is joined with the
separator and cleaned; the result is empty when every element is. -/
def Join (elem : List Str) : Str :=
  match elem.dropWhile (fun e => e.isEmpty) with
  | [] => []
  | rest => Clean (List.intercalate ['/'] rest)

/-! ## The driver: `processFile` and `generateCode` -/

/-- Source: `TemplateData` in `thrift/thrift-gen/main.go`. -/
structure TemplateData (Service Includes : Type) where
  Package : Str
  Services : List Service
  Includes : Includes
  ThriftImport : Str
  TChannelImport : Str

/-- Source: the constant `tchannelThriftImport`. -/
def tchannelThriftImport : Str := "github.com/uber/tchannel-go/thrift".toList

/-- What a run does to the outside, in program order. `generateCode` marks a call of
`generateCode`, `wrapServices` and `execute` the two in-memory stages inside it. -/
inductive Event (Service Includes : Type)
  | mkdirAll (dir : Str)
  | runThrift (inputFile outputDir : Str)
  | parseFile (inputFile : Str)
  | generateCode (outputFile pkg : Str)
  | wrapServices
  | execute (td : TemplateData Service Includes)
  | writeFile (path : Str) (content : Bytes)
  | gofmt (path : Str)

/-- How a run ends: the function returns (with an error or with nil), or `log.Fatalf`
ends the process. -/
inductive Outcome
  | returned (err : Option GoError)
  | fatal (msg : String)
  deriving DecidableEq

/-- The collaborators of the driver that are not in `main.go`. `Thrift` is the parsed
model `*parser.Thrift`, `State` is `*State`. `parseFile` answers with the entries of the
parsed-file map in the order in which the `range` loop of that run visits them. -/
structure World (Thrift State Service Includes : Type) where
  /-- The call `os.MkdirAll(dir, 0770)`. -/
  mkdirAll : Str → Option GoError
  /-- The call `runThrift(inputFile, outputDir)`, the upstream compiler. -/
  runThrift : Str → Str → Option GoError
  /-- The call `parser.ParseFile(inputFile)`. -/
  parseFile : Str → Except GoError (List (Str × Thrift))
  /-- The map `createStates(parsed)`, looked up at a file name. -/
  createStates : List (Str × Thrift) → Str → State
  /-- The call `wrapServices(parsed, state)`. -/
  wrapServices : Thrift → State → Except GoError (List Service)
  /-- The field `state.includes`. -/
  includes : State → Includes
  /-- The flag `*apacheThriftImport`. -/
  apacheThriftImport : Str
  /-- The call `tmpl.Execute(buf, td)` on the parsed template: an error or the buffer content. -/
  execute : TemplateData Service Includes → Except GoError Bytes
  /-- The call `ioutil.WriteFile(path, content, 0660)`. -/
  writeFile : Str → Bytes → Option GoError
  /-- The table `unicode.ToLower`. -/
  lowerRune : Char → Char

/-- The value `td` that `generateCode` builds for the template. -/
def templateData {Thrift State Service Includes : Type}
    (w : World Thrift State Service Includes) (pkg : Str) (wrappedServices : List Service)
    (state : State) : TemplateData Service Includes :=
  { Package := pkg
    Services := wrappedServices
    Includes := w.includes state
    ThriftImport := w.apacheThriftImport
    TChannelImport := tchannelThriftImport }

/-- Source: `generateCode` in `thrift/thrift-gen/main.go`. -/
def generateCode {Thrift State Service Includes : Type}
    (w : World Thrift State Service Includes) (outputFile : Str) (pkg : Str)
    (parsed : Thrift) (state : State) : Outcome × List (Event Service Includes) :=
  if outputFile = [] then
    (.returned (some "must speciy an output file"), [])
  else
    match w.wrapServices parsed state with
    | .error err => (.fatal ("Service parsing error: " ++ err), [.wrapServices])
    | .ok wrappedServices =>
      let td := templateData w pkg wrappedServices state
      match w.execute td with
      | .error err =>
        (.returned (some ("failed to execute template: " ++ err)), [.wrapServices, .execute td])
      | .ok buf =>
        let generated := cleanGeneratedCode buf
        match w.writeFile outputFile generated with
        | some err =>
          (.returned (some ("cannot write output file " ++ String.mk outputFile ++ ": " ++ err)),
            [.wrapServices, .execute td, .writeFile outputFile generated])
        | none =>
          (.returned none,
            [.wrapServices, .execute td, .writeFile outputFile generated, .gofmt outputFile])

/-- The events of the optional upstream-compiler stage of `processFile`. -/
def thriftEvents {Service Includes : Type} (generateThrift : Bool) (inputFile outputDir : Str) :
    List (Event Service Includes) :=
  if generateThrift then [.runThrift inputFile outputDir] else []

/-- The value `outputFile` that `processFile` computes for the file name `filename`. -/
def outputPath {Thrift State Service Includes : Type}
    (w : World Thrift State Service Includes) (outputDir filename : Str) : Str :=
  Join [outputDir, packageName w.lowerRune filename,
    "tchan-".toList ++ packageName w.lowerRune filename ++ ".go".toList]

/-- Source: `processFile` in `thrift/thrift-gen/main.go`. The `range` loop over the
parsed-file map returns in its first iteration, so only the first visited entry counts. -/
def processFile {Thrift State Service Includes : Type}
    (w : World Thrift State Service Includes) (generateThrift : Bool)
    (inputFile : Str) (outputDir : Str) : Outcome × List (Event Service Includes) :=
  match w.mkdirAll outputDir with
  | some err =>
    (.returned (some ("failed to create output directory \"" ++ String.mk outputDir
      ++ "\": " ++ err)), [.mkdirAll outputDir])
  | none =>
    let thrift : Option GoError × List (Event Service Includes) :=
      if generateThrift then (w.runThrift inputFile outputDir, [.runThrift inputFile outputDir])
      else (none, [])
    match thrift.1 with
    | some err =>
      (.returned (some ("Could not generate thrift output: " ++ err)),
        .mkdirAll outputDir :: thrift.2)
    | none =>
      match w.parseFile inputFile with
      | .error err =>
        (.returned (some ("Could not parse .thrift file: " ++ err)),
          .mkdirAll outputDir :: thrift.2 ++ [.parseFile inputFile])
      | .ok parsed =>
        let states := w.createStates parsed
        match parsed with
        | [] => (.returned none, .mkdirAll outputDir :: thrift.2 ++ [.parseFile inputFile])
        | (filename, v) :: _ =>
          let s := states filename
          let pkg := packageName w.lowerRune filename
          let outputFile := Join [outputDir, pkg, "tchan-".toList ++ pkg ++ ".go".toList]
          let r := generateCode w outputFile pkg v s
          (r.1, .mkdirAll outputDir :: thrift.2 ++ [.parseFile inputFile]
            ++ .generateCode outputFile pkg :: r.2)

/-- The event is a call of `generateCode`. -/
def Event.isGenerateCode {Service Includes : Type} : Event Service Includes → Bool
  | .generateCode _ _ => true
  | _ => false

/-- The event touches an output file: a write or a gofmt run. -/
def Event.isOutput {Service Includes : Type} : Event Service Includes → Bool
  | .writeFile _ _ => true
  | .gofmt _ => true
  | _ => false

/-- The event is a file write. -/
def Event.isWriteFile {Service Includes : Type} : Event Service Includes → Bool
  | .writeFile _ _ => true
  | _ => false

/-- The event is a run of the upstream compiler. -/
def Event.isRunThrift {Service Includes : Type} : Event Service Includes → Bool
  | .runThrift _ _ => true
  | _ => false

/-- The event is a call of the IDL parser. -/
def Event.isParseFile {Service Includes : Type} : Event Service Includes → Bool
  | .parseFile _ => true
  | _ => false

/-- The paths written by a run, in order. -/
def writtenPaths {Service Includes : Type} : List (Event Service Includes) → List Str
  | [] => []
  | .writeFile path _ :: rest => path :: writtenPaths rest
  | _ :: rest => writtenPaths rest

/-- The `Package` values handed to the template by a run, in order. -/
def executedPackages {Service Includes : Type} : List (Event Service Includes) → List Str
  | [] => []
  | .execute td :: rest => td.Package :: executedPackages rest
  | _ :: rest => executedPackages rest

/-- A run ended in failure: it returned a non-nil error or exited through `log.Fatalf`. -/
def Outcome.failed : Outcome → Bool
  | .returned none => false
  | _ => true

/-- A concrete world in which every stage succeeds: the parsed model of a file is just
the package name its IDL declares, `parseFile` answers `parsed`, and the template emits the
Go package clause for `td.Package` followed by a whitespace-only line. -/
def demoWorld (parsed : Except GoError (List (Str × Str))) : World Str Unit Unit Unit where
  mkdirAll := fun _ => none
  runThrift := fun _ _ => none
  parseFile := fun _ => parsed
  createStates := fun _ _ => ()
  wrapServices := fun _ _ => .ok []
  includes := fun _ => ()
  apacheThriftImport := "github.com/apache/thrift/lib/go/thrift".toList
  execute := fun td =>
    .ok (("package ".toList ++ td.Package).map (fun c => c.toNat.toUInt8) ++ [10, 32, 10])
  writeFile := fun _ _ => none
  lowerRune := Char.toLower

/-! ## The generated codec of `HealthCheckRes` -/

/-- The Thrift wire type `thrift.TType`, a byte. -/
abbrev TType := Nat

/-- Wire type `thrift.STOP`. -/
def STOP : TType := 0

/-- Wire type `thrift.BOOL`. -/
def BOOL : TType := 2

/-- Wire type `thrift.STRING`. -/
def STRING : TType := 11

/-- The methods of the interface `thrift.TProtocol` that the generated code calls, over a
protocol state `σ`. Each method returns its Go results, the error last (`none` is nil),
and the state after the call. -/
structure TProtocol (σ : Type) where
  WriteStructBegin : String → σ → Option GoError × σ
  WriteStructEnd : σ → Option GoError × σ
  WriteFieldBegin : String → TType → Int → σ → Option GoError × σ
  WriteFieldEnd : σ → Option GoError × σ
  WriteFieldStop : σ → Option GoError × σ
  WriteBool : Bool → σ → Option GoError × σ
  WriteString : String → σ → Option GoError × σ
  ReadStructBegin : σ → (String × Option GoError) × σ
  ReadStructEnd : σ → Option GoError × σ
  ReadFieldBegin : σ → (String × TType × Int × Option GoError) × σ
  ReadFieldEnd : σ → Option GoError × σ
  ReadBool : σ → (Bool × Option GoError) × σ
  ReadString : σ → (String × Option GoError) × σ
  Skip : TType → σ → Option GoError × σ

/-- Source: `HealthCheckRes` in `examples/thrift/gen-go/example/ttypes.go`. -/
structure HealthCheckRes where
  Healthy : Bool
  Msg : String
  deriving DecidableEq, Repr

/-- The call `thrift.PrependError(prepend, err)`, on error messages. -/
def PrependError (prepend : String) (err : GoError) : GoError := prepend ++ err

/-- Source: `HealthCheckRes.ReadField1`. Returns the receiver after the call, the
returned error and the protocol state. -/
def ReadField1 {σ : Type} (iprot : TProtocol σ) (p : HealthCheckRes) (s : σ) :
    HealthCheckRes × Option GoError × σ :=
  match iprot.ReadBool s with
  | ((_, some err), s1) => (p, some (PrependError "error reading field 1: " err), s1)
  | ((v, none), s1) => ({ p with Healthy := v }, none, s1)

/-- Source: `HealthCheckRes.ReadField2`. -/
def ReadField2 {σ : Type} (iprot : TProtocol σ) (p : HealthCheckRes) (s : σ) :
    HealthCheckRes × Option GoError × σ :=
  match iprot.ReadString s with
  | ((_, some err), s1) => (p, some (PrependError "error reading field 2: " err), s1)
  | ((v, none), s1) => ({ p with Msg := v }, none, s1)

/-- The `for` loop of `HealthCheckRes.Read`. The result is `none` when the fuel runs out
before the loop ends; otherwise the receiver, the error with which `Read` returns from
inside the loop (`none` when the loop ends by `break`), and the protocol state. -/
def readFields {σ : Type} (iprot : TProtocol σ) :
    Nat → HealthCheckRes → σ → Option (HealthCheckRes × Option GoError × σ)
  | 0, _, _ => none
  | fuel + 1, p, s =>
    match iprot.ReadFieldBegin s with
    | ((_, _, fieldId, some err), s1) =>
      some (p, some (PrependError
        ("*example.HealthCheckRes field " ++ toString fieldId ++ " read error: ") err), s1)
    | ((_, fieldTypeId, fieldId, none), s1) =>
      if fieldTypeId = STOP then some (p, none, s1)
      else
        let r : HealthCheckRes × Option GoError × σ :=
          if fieldId = 1 then ReadField1 iprot p s1
          else if fieldId = 2 then ReadField2 iprot p s1
          else (p, iprot.Skip fieldTypeId s1)
        match r with
        | (p2, some err, s2) => some (p2, some err, s2)
        | (p2, none, s2) =>
          match iprot.ReadFieldEnd s2 with
          | (some err, s3) => some (p2, some err, s3)
          | (none, s3) => readFields iprot fuel p2 s3

/-- Source: `HealthCheckRes.Read`; `fuel` bounds the iterations of its loop. -/
def Read {σ : Type} (iprot : TProtocol σ) (fuel : Nat) (p : HealthCheckRes) (s : σ) :
    Option (HealthCheckRes × Option GoError × σ) :=
  match iprot.ReadStructBegin s with
  | ((_, some err), s1) =>
    some (p, some (PrependError "*example.HealthCheckRes read error: " err), s1)
  | ((_, none), s1) =>
    match readFields iprot fuel p s1 with
    | none => none
    | some (p2, some err, s2) => some (p2, some err, s2)
    | some (p2, none, s2) =>
      match iprot.ReadStructEnd s2 with
      | (some err, s3) =>
        some (p2, some (PrependError "*example.HealthCheckRes read struct end error: " err), s3)
      | (none, s3) => some (p2, none, s3)

/-- Source: `HealthCheckRes.writeField1`. -/
def writeField1 {σ : Type} (oprot : TProtocol σ) (p : HealthCheckRes) (s : σ) :
    Option GoError × σ :=
  match oprot.WriteFieldBegin "healthy" BOOL 1 s with
  | (some err, s1) =>
    (some (PrependError "*example.HealthCheckRes write field begin error 1:healthy: " err), s1)
  | (none, s1) =>
    match oprot.WriteBool p.Healthy s1 with
    | (some err, s2) =>
      (some (PrependError "*example.HealthCheckRes.healthy (1) field write error: " err), s2)
    | (none, s2) =>
      match oprot.WriteFieldEnd s2 with
      | (some err, s3) =>
        (some (PrependError "*example.HealthCheckRes write field end error 1:healthy: " err), s3)
      | (none, s3) => (none, s3)

/-- Source: `HealthCheckRes.writeField2`. -/
def writeField2 {σ : Type} (oprot : TProtocol σ) (p : HealthCheckRes) (s : σ) :
    Option GoError × σ :=
  match oprot.WriteFieldBegin "msg" STRING 2 s with
  | (some err, s1) =>
    (some (PrependError "*example.HealthCheckRes write field begin error 2:msg: " err), s1)
  | (none, s1) =>
    match oprot.WriteString p.Msg s1 with
    | (some err, s2) =>
      (some (PrependError "*example.HealthCheckRes.msg (2) field write error: " err), s2)
    | (none, s2) =>
      match oprot.WriteFieldEnd s2 with
      | (some err, s3) =>
        (some (PrependError "*example.HealthCheckRes write field end error 2:msg: " err), s3)
      | (none, s3) => (none, s3)

/-- Source: `HealthCheckRes.Write`. -/
def Write {σ : Type} (oprot : TProtocol σ) (p : HealthCheckRes) (s : σ) :
    Option GoError × σ :=
  match oprot.WriteStructBegin "HealthCheckRes" s with
  | (some err, s1) =>
    (some (PrependError "*example.HealthCheckRes write struct begin error: " err), s1)
  | (none, s1) =>
    match writeField1 oprot p s1 with
    | (some err, s2) => (some err, s2)
    | (none, s2) =>
      match writeField2 oprot p s2 with
      | (some err, s3) => (some err, s3)
      | (none, s3) =>
        match oprot.WriteFieldStop s3 with
        | (some err, s4) => (some (PrependError "write field stop error: " err), s4)
        | (none, s4) =>
          match oprot.WriteStructEnd s4 with
          | (some err, s5) => (some (PrependError "write struct stop error: " err), s5)
          | (none, s5) => (none, s5)

/-- What a protocol call puts on, or takes off, the stream. -/
inductive Token
  | structBegin (name : String)
  | structEnd
  | fieldBegin (name : String) (typeId : TType) (id : Int)
  | fieldEnd
  | fieldStop
  | bool (v : Bool)
  | string (v : String)
  deriving DecidableEq, Repr

/-- A faithful protocol: `pending s` is what has been written and not yet read. Every
write succeeds and appends its token; every read whose token is at the head of the stream
succeeds, returns what the matching write wrote and removes the token. Names are not
compared: a protocol need not transmit them. -/
structure Faithful {σ : Type} (P : TProtocol σ) (pending : σ → List Token) : Prop where
  writeStructBegin : ∀ name s, (P.WriteStructBegin name s).1 = none ∧
    pending (P.WriteStructBegin name s).2 = pending s ++ [.structBegin name]
  writeStructEnd : ∀ s, (P.WriteStructEnd s).1 = none ∧
    pending (P.WriteStructEnd s).2 = pending s ++ [.structEnd]
  writeFieldBegin : ∀ name t id s, (P.WriteFieldBegin name t id s).1 = none ∧
    pending (P.WriteFieldBegin name t id s).2 = pending s ++ [.fieldBegin name t id]
  writeFieldEnd : ∀ s, (P.WriteFieldEnd s).1 = none ∧
    pending (P.WriteFieldEnd s).2 = pending s ++ [.fieldEnd]
  writeFieldStop : ∀ s, (P.WriteFieldStop s).1 = none ∧
    pending (P.WriteFieldStop s).2 = pending s ++ [.fieldStop]
  writeBool : ∀ v s, (P.WriteBool v s).1 = none ∧
    pending (P.WriteBool v s).2 = pending s ++ [.bool v]
  writeString : ∀ v s, (P.WriteString v s).1 = none ∧
    pending (P.WriteString v s).2 = pending s ++ [.string v]
  readStructBegin : ∀ s name rest, pending s = .structBegin name :: rest →
    (P.ReadStructBegin s).1.2 = none ∧ pending (P.ReadStructBegin s).2 = rest
  readStructEnd : ∀ s rest, pending s = .structEnd :: rest →
    (P.ReadStructEnd s).1 = none ∧ pending (P.ReadStructEnd s).2 = rest
  readFieldBegin : ∀ s name t id rest, pending s = .fieldBegin name t id :: rest →
    (P.ReadFieldBegin s).1.2 = (t, id, none) ∧ pending (P.ReadFieldBegin s).2 = rest
  readFieldStop : ∀ s rest, pending s = .fieldStop :: rest →
    (P.ReadFieldBegin s).1.2.1 = STOP ∧ (P.ReadFieldBegin s).1.2.2.2 = none ∧
    pending (P.ReadFieldBegin s).2 = rest
  readFieldEnd : ∀ s rest, pending s = .fieldEnd :: rest →
    (P.ReadFieldEnd s).1 = none ∧ pending (P.ReadFieldEnd s).2 = rest
  readBool : ∀ s v rest, pending s = .bool v :: rest →
    (P.ReadBool s).1 = (v, none) ∧ pending (P.ReadBool s).2 = rest
  readString : ∀ s v rest, pending s = .string v :: rest →
    (P.ReadString s).1 = (v, none) ∧ pending (P.ReadString s).2 = rest

/-- One field of a field stream: its header and the tokens of its value. -/
structure Field where
  name : String
  typeId : TType
  id : Int
  value : List Token

/-- The tokens of one field: header, value, end. -/
def encodeField (f : Field) : List Token :=
  .fieldBegin f.name f.typeId f.id :: (f.value ++ [.fieldEnd])

/-- The tokens of a sequence of fields. -/
def encodeFields : List Field → List Token
  | [] => []
  | f :: fs => encodeField f ++ encodeFields fs

/-- A well-formed field of a `HealthCheckRes` stream: its wire type is not STOP; field 1
carries one bool, field 2 one string; the value of any other field is what `Skip`, called
with the field's wire type, consumes. -/
def WellFormedField {σ : Type} (P : TProtocol σ) (pending : σ → List Token) (f : Field) : Prop :=
  f.typeId ≠ STOP ∧
  (f.id = 1 → ∃ b, f.value = [.bool b]) ∧
  (f.id = 2 → ∃ v, f.value = [.string v]) ∧
  (f.id ≠ 1 → f.id ≠ 2 → ∀ s rest, pending s = f.value ++ rest →
    (P.Skip f.typeId s).1 = none ∧ pending (P.Skip f.typeId s).2 = rest)

/-- The value of `Healthy` after the fields: that of the last field with id 1, else the
value before. -/
def healthyAfter : Bool → List Field → Bool
  | h, [] => h
  | h, f :: fs =>
    healthyAfter (if f.id = 1 then (match f.value with | [.bool b] => b | _ => h) else h) fs

/-- The value of `Msg` after the fields: that of the last field with id 2, else the value
before. -/
def msgAfter : String → List Field → String
  | m, [] => m
  | m, f :: fs =>
    msgAfter (if f.id = 2 then (match f.value with | [.string v] => v | _ => m) else m) fs

/-- An in-memory protocol whose state is the token stream itself: writes append, reads
take the head token and fail on any other token. Its `Skip` consumes one bool for BOOL
and one string for STRING, and fails for the other wire types, which this token alphabet
does not carry. -/
def streamProtocol : TProtocol (List Token) where
  WriteStructBegin := fun name s => (none, s ++ [.structBegin name])
  WriteStructEnd := fun s => (none, s ++ [.structEnd])
  WriteFieldBegin := fun name t id s => (none, s ++ [.fieldBegin name t id])
  WriteFieldEnd := fun s => (none, s ++ [.fieldEnd])
  WriteFieldStop := fun s => (none, s ++ [.fieldStop])
  WriteBool := fun v s => (none, s ++ [.bool v])
  WriteString := fun v s => (none, s ++ [.string v])
  ReadStructBegin := fun s =>
    match s with
    | .structBegin name :: rest => ((name, none), rest)
    | _ => (("", some "unexpected token"), s)
  ReadStructEnd := fun s =>
    match s with
    | .structEnd :: rest => (none, rest)
    | _ => (some "unexpected token", s)
  ReadFieldBegin := fun s =>
    match s with
    | .fieldBegin name t id :: rest => ((name, t, id, none), rest)
    | .fieldStop :: rest => (("", STOP, 0, none), rest)
    | _ => (("", STOP, 0, some "unexpected token"), s)
  ReadFieldEnd := fun s =>
    match s with
    | .fieldEnd :: rest => (none, rest)
    | _ => (some "unexpected token", s)
  ReadBool := fun s =>
    match s with
    | .bool v :: rest => ((v, none), rest)
    | _ => ((false, some "unexpected token"), s)
  ReadString := fun s =>
    match s with
    | .string v :: rest => ((v, none), rest)
    | _ => (("", some "unexpected token"), s)
  Skip := fun t s =>
    match s with
    | .bool _ :: rest => if t = BOOL then (none, rest) else (some "unexpected token", s)
    | .string _ :: rest => if t = STRING then (none, rest) else (some "unexpected token", s)
    | _ => (some "unexpected token", s)

/-! ## Lemmas on paths -/

theorem exists_last_split {α : Type} [DecidableEq α] (a : α) :
    ∀ l : List α, a ∈ l → ∃ s t, l = s ++ a :: t ∧ a ∉ t := by
  intro l
  induction l with
  | nil => intro h; cases h
  | cons x l ih =>
    intro h
    by_cases hl : a ∈ l
    · obtain ⟨s, t, hst, ht⟩ := ih hl
      exact ⟨x :: s, t, by rw [hst]; rfl, ht⟩
    · have hx : a = x := by
        rcases List.mem_cons.1 h with h | h
        · exact h
        · exact absurd h hl
      exact ⟨[], l, by rw [hx]; rfl, hl⟩

theorem takeWhile_ne_all (a : Char) (l : Str) (h : a ∉ l) :
    l.takeWhile (fun c => c != a) = l := by
  rw [List.takeWhile_eq_self_iff]
  intro x hx
  simp only [bne_iff_ne, ne_eq]
  intro hxa; exact h (hxa ▸ hx)

theorem takeWhile_ne_stop (a : Char) (l r : Str) (h : a ∉ l) :
    (l ++ a :: r).takeWhile (fun c => c != a) = l := by
  rw [List.takeWhile_append_of_pos]
  · simp [List.takeWhile]
  · intro x hx
    simp only [bne_iff_ne, ne_eq]
    intro hxa; exact h (hxa ▸ hx)

theorem Split_snd_of_no_sep (name : Str) (h : '/' ∉ name) : (Split name).2 = name := by
  unfold Split
  simp only
  rw [takeWhile_ne_all '/' name.reverse (by simpa using h), List.reverse_reverse]

theorem Split_snd_dir (dir name : Str) (h : '/' ∉ name) :
    (Split (dir ++ '/' :: name)).2 = name := by
  unfold Split
  simp only [List.reverse_append, List.reverse_cons, List.append_assoc, List.singleton_append]
  rw [takeWhile_ne_stop '/' name.reverse dir.reverse (by simpa using h), List.reverse_reverse]

theorem Split_snd_no_sep (path : Str) : '/' ∉ (Split path).2 := by
  unfold Split
  simp only [List.mem_reverse]
  intro h
  have := List.mem_takeWhile_imp h
  simp at this

theorem Ext_of_no_dot (name : Str) (h : '.' ∉ name) : Ext name = [] := by
  unfold Ext
  simp only
  rw [if_neg]
  intro hm
  exact h (List.mem_reverse.1 ((List.takeWhile_sublist _).subset hm))

theorem Ext_of_dot (s t : Str) (hsep : '/' ∉ t) (hdot : '.' ∉ t) :
    Ext (s ++ '.' :: t) = '.' :: t := by
  unfold Ext
  have hrev : (s ++ '.' :: t).reverse = t.reverse ++ '.' :: s.reverse := by simp
  have htw : (t.reverse ++ '.' :: s.reverse).takeWhile (fun c => c != '/')
      = t.reverse ++ '.' :: s.reverse.takeWhile (fun c => c != '/') := by
    rw [List.takeWhile_append_of_pos]
    · simp [List.takeWhile]
    · intro x hx
      simp only [bne_iff_ne, ne_eq]
      intro hx2; exact hsep (hx2 ▸ List.mem_reverse.1 hx)
  simp only [hrev, htw]
  rw [if_pos (by simp)]
  rw [takeWhile_ne_stop '.' t.reverse _ (by simpa using hdot)]
  simp

theorem TrimSuffix_append (s suf : Str) : TrimSuffix (s ++ suf) suf = s := by
  unfold TrimSuffix
  rw [if_pos (by simp)]
  simp

theorem TrimSuffix_nil (s : Str) : TrimSuffix s [] = s := by
  unfold TrimSuffix
  simp

theorem stem_of_no_dot (name : Str) (h : '.' ∉ name) : TrimSuffix name (Ext name) = name := by
  rw [Ext_of_no_dot name h, TrimSuffix_nil]

theorem stem_of_dot (s t : Str) (hsep : '/' ∉ t) (hdot : '.' ∉ t) :
    TrimSuffix (s ++ '.' :: t) (Ext (s ++ '.' :: t)) = s := by
  rw [Ext_of_dot s t hsep hdot, TrimSuffix_append]

theorem packageName_dir (lowerRune : Char → Char) (dir name : Str) (h : '/' ∉ name) :
    packageName lowerRune (dir ++ '/' :: name) = packageName lowerRune name := by
  unfold packageName
  simp only [Split_snd_dir dir name h, Split_snd_of_no_sep name h]

theorem packageName_dot (lowerRune : Char → Char) (s t : Str)
    (hs : '/' ∉ s) (hsep : '/' ∉ t) (hdot : '.' ∉ t) :
    packageName lowerRune (s ++ '.' :: t) = s.map lowerRune := by
  unfold packageName
  have : '/' ∉ s ++ '.' :: t := by
    simp only [List.mem_append, List.mem_cons, not_or]
    exact ⟨hs, by decide, hsep⟩
  simp only [Split_snd_of_no_sep _ this, stem_of_dot s t hsep hdot, ToLower]

theorem packageName_no_dot (lowerRune : Char → Char) (name : Str)
    (hsep : '/' ∉ name) (hdot : '.' ∉ name) :
    packageName lowerRune name = name.map lowerRune := by
  unfold packageName
  simp only [Split_snd_of_no_sep _ hsep, stem_of_no_dot name hdot, ToLower]

theorem Split_snd_map (lowerRune : Char → Char) (hsep : ∀ c, lowerRune c = '/' ↔ c = '/')
    (path : Str) : (Split (path.map lowerRune)).2 = (Split path).2.map lowerRune := by
  unfold Split
  simp only
  have hp : ((fun c => c != '/') ∘ lowerRune) = (fun c : Char => c != '/') := by
    funext c
    simp only [Function.comp]
    by_cases hc : c = '/'
    · simp [hc, (hsep '/').2 rfl]
    · have hl := mt (hsep c).1 hc
      simp [bne, hc, hl]
  rw [← List.map_reverse, List.takeWhile_map, hp, List.map_reverse]

theorem stem_map (lowerRune : Char → Char) (hsep : ∀ c, lowerRune c = '/' ↔ c = '/')
    (hdot : ∀ c, lowerRune c = '.' ↔ c = '.') (name : Str) (hname : '/' ∉ name) :
    TrimSuffix (name.map lowerRune) (Ext (name.map lowerRune))
      = (TrimSuffix name (Ext name)).map lowerRune := by
  have hmem : ∀ (a : Char), (∀ c, lowerRune c = a ↔ c = a) → ∀ l : Str,
      a ∉ l → a ∉ l.map lowerRune := by
    intro a ha l hl hm
    obtain ⟨c, hc, hca⟩ := List.mem_map.1 hm
    exact hl ((ha c).1 hca ▸ hc)
  by_cases hd : '.' ∈ name
  · obtain ⟨s, t, hst, ht⟩ := exists_last_split '.' name hd
    have hsept : '/' ∉ t := fun h => hname (by rw [hst]; simp [h])
    rw [hst, stem_of_dot s t hsept ht]
    have : (s ++ '.' :: t).map lowerRune = s.map lowerRune ++ '.' :: t.map lowerRune := by
      simp [(hdot '.').2 rfl]
    rw [this, stem_of_dot _ _ (hmem '/' hsep t hsept) (hmem '.' hdot t ht)]
  · rw [stem_of_no_dot name hd, stem_of_no_dot _ (hmem '.' hdot name hd)]

theorem packageName_map (lowerRune : Char → Char) (hsep : ∀ c, lowerRune c = '/' ↔ c = '/')
    (hdot : ∀ c, lowerRune c = '.' ↔ c = '.') (path : Str) :
    packageName lowerRune path
      = TrimSuffix (Split (path.map lowerRune)).2 (Ext (Split (path.map lowerRune)).2) := by
  unfold packageName
  simp only [ToLower]
  rw [Split_snd_map lowerRune hsep, stem_map lowerRune hsep hdot _ (Split_snd_no_sep path)]

theorem toLower_eq_iff (a : Char) (ha : a.toNat < 65) (c : Char) :
    Char.toLower c = a ↔ c = a := by
  unfold Char.toLower
  simp only
  split
  · rename_i h
    constructor
    · intro h2
      exfalso
      have h3 : (Char.ofNat (c.toNat + 32)).toNat = a.toNat := by rw [h2]
      have hv : (c.toNat + 32).isValidChar := by
        left; omega
      have h4 : (Char.ofNat (c.toNat + 32)).toNat = c.toNat + 32 := by
        rw [Char.ofNat, dif_pos hv]
        simp [Char.ofNatAux, Char.toNat, UInt32.toNat]
      omega
    · intro h2
      subst h2
      omega
  · exact Iff.rfl

/-! ## `cleanGeneratedCode` -/

theorem isSpaceTab_iff (b : UInt8) : isSpaceTab b = true ↔ b = 32 ∨ b = 9 := by
  simp [isSpaceTab]

theorem matchNlSpaceNL_some {s after : Bytes} (h : matchNlSpaceNL s = some after) :
    ∃ ws, s = 10 :: (ws ++ 10 :: after) ∧ ws ≠ [] ∧ ∀ b ∈ ws, b = 32 ∨ b = 9 := by
  cases s with
  | nil => simp [matchNlSpaceNL] at h
  | cons b rest =>
    simp only [matchNlSpaceNL] at h
    split at h
    · rename_i hb
      split at h
      · exact absurd h (by simp)
      · rename_i hne
        split at h
        · rename_i c after2 hdw
          split at h
          · rename_i hc
            refine ⟨rest.takeWhile isSpaceTab, ?_, ?_, ?_⟩
            · have := List.takeWhile_append_dropWhile isSpaceTab rest
              rw [hdw, hc] at this
              simp only [Option.some.injEq] at h
              rw [hb, ← h, this]
            · intro h0; rw [h0] at hne; simp at hne
            · intro x hx
              exact (isSpaceTab_iff x).1 (List.mem_takeWhile_imp hx)
          · exact absurd h (by simp)
        · exact absurd h (by simp)
    · exact absurd h (by simp)

theorem matchNlSpaceNL_of_shape (ws after : Bytes) (hne : ws ≠ [])
    (hws : ∀ b ∈ ws, b = 32 ∨ b = 9) :
    matchNlSpaceNL (10 :: (ws ++ 10 :: after)) = some after := by
  have htw : (ws ++ 10 :: after).takeWhile isSpaceTab = ws := by
    rw [List.takeWhile_append_of_pos (fun b hb => (isSpaceTab_iff b).2 (hws b hb))]
    simp [List.takeWhile, isSpaceTab]
  have hdw : (ws ++ 10 :: after).dropWhile isSpaceTab = 10 :: after := by
    rw [List.dropWhile_append_of_pos (fun b hb => (isSpaceTab_iff b).2 (hws b hb))]
    simp [List.dropWhile, isSpaceTab]
  simp only [matchNlSpaceNL, htw, hdw]
  cases ws with
  | nil => exact absurd rfl hne
  | cons w ws => simp

theorem splitLines_ne_nil (s : Bytes) : ∃ l ls, splitLines s = l :: ls := by
  induction s with
  | nil => exact ⟨[], [], rfl⟩
  | cons b rest ih =>
    obtain ⟨l, ls, h⟩ := ih
    by_cases hb : b = 10
    · exact ⟨[], splitLines rest, by simp [splitLines, hb]⟩
    · exact ⟨b :: l, ls, by simp [splitLines, hb, h]⟩

theorem splitLines_nl (s : Bytes) : splitLines (10 :: s) = [] :: splitLines s := by
  simp [splitLines]

theorem splitLines_cons_of_ne {b : UInt8} (hb : b ≠ 10) {s l : Bytes} {ls : List Bytes}
    (h : splitLines s = l :: ls) : splitLines (b :: s) = (b :: l) :: ls := by
  simp [splitLines, hb, h]

theorem splitLines_blank_append (ws rest : Bytes) (hws : ∀ b ∈ ws, b = 32 ∨ b = 9) :
    splitLines (ws ++ 10 :: rest) = ws :: splitLines rest := by
  induction ws with
  | nil => simpa using splitLines_nl rest
  | cons w ws ih =>
    have hw : w ≠ 10 := by
      rcases hws w (List.mem_cons_self _ _) with h | h <;> rw [h] <;> decide
    have := ih (fun b hb => hws b (List.mem_cons_of_mem _ hb))
    exact splitLines_cons_of_ne hw this

theorem matchNlSpaceNL_length {s after : Bytes} (h : matchNlSpaceNL s = some after) :
    after.length + 3 ≤ s.length := by
  obtain ⟨ws, hs, hne, _⟩ := matchNlSpaceNL_some h
  subst hs
  cases ws with
  | nil => exact absurd rfl hne
  | cons w ws => simp only [List.length_cons, List.length_append]; omega

/-- line-level effect of one pass: first and last line stay, only blank lines go -/
theorem replaceAll_lines (fuel : Nat) : ∀ s : Bytes, s.length ≤ fuel →
    ∃ l0 xs ys, splitLines s = l0 :: xs ∧
      splitLines (replaceAllNlSpaceNL fuel s) = l0 :: ys ∧
      OnlyBlankLinesDropped xs ys ∧ xs.getLast? = ys.getLast? := by
  induction fuel with
  | zero =>
    intro s hs
    have : s = [] := List.length_eq_zero.1 (Nat.le_zero.1 hs)
    subst this
    exact ⟨[], [], [], rfl, rfl, .done, rfl⟩
  | succ fuel ih =>
    intro s hs
    cases s with
    | nil => exact ⟨[], [], [], rfl, rfl, .done, rfl⟩
    | cons b rest =>
      cases hm : matchNlSpaceNL (b :: rest) with
      | some after =>
        have hlen := matchNlSpaceNL_length hm
        obtain ⟨ws, hshape, hne, hws⟩ := matchNlSpaceNL_some hm
        obtain ⟨l0, xs, ys, h1, h2, h3, h4⟩ := ih after (by simp at hs hlen; omega)
        refine ⟨[], ws :: l0 :: xs, l0 :: ys, ?_, ?_, ?_, ?_⟩
        · rw [hshape, splitLines_nl, splitLines_blank_append ws after hws, h1]
        · simp only [replaceAllNlSpaceNL, hm]
          rw [splitLines_nl, h2]
        · exact .drop ws ⟨hne, hws⟩ (.keep l0 h3)
        · rw [List.getLast?_cons_cons, List.getLast?_cons, List.getLast?_cons, h4]
      | none =>
        obtain ⟨l0, xs, ys, h1, h2, h3, h4⟩ := ih rest (by simp at hs; omega)
        simp only [replaceAllNlSpaceNL, hm]
        by_cases hb : b = 10
        · subst hb
          refine ⟨[], l0 :: xs, l0 :: ys, ?_, ?_, .keep l0 h3, ?_⟩
          · rw [splitLines_nl, h1]
          · rw [splitLines_nl, h2]
          · rw [List.getLast?_cons, List.getLast?_cons, h4]
        · exact ⟨b :: l0, xs, ys, splitLines_cons_of_ne hb h1,
            splitLines_cons_of_ne hb h2, h3, h4⟩

theorem OnlyBlankLinesDropped.sublist {xs ys : List Bytes}
    (h : OnlyBlankLinesDropped xs ys) : ys.Sublist xs := by
  induction h with
  | done => exact List.Sublist.slnil
  | keep l _ ih => exact ih.cons₂ l
  | drop l _ _ ih => exact ih.cons l

theorem OnlyBlankLinesDropped.filter_eq {xs ys : List Bytes}
    (h : OnlyBlankLinesDropped xs ys) :
    xs.filter (fun l => !decide (IsBlankLine l)) = ys.filter (fun l => !decide (IsBlankLine l)) := by
  induction h with
  | done => rfl
  | keep l _ ih => simp only [List.filter_cons, ih]
  | drop l hl _ ih => simp [List.filter_cons, hl, ih]

theorem replaceAll_no_match (fuel : Nat) : ∀ s : Bytes, s.length ≤ fuel →
    (∀ pre t, s = pre ++ t → matchNlSpaceNL t = none) → replaceAllNlSpaceNL fuel s = s := by
  induction fuel with
  | zero =>
    intro s hs _
    have : s = [] := List.length_eq_zero.1 (Nat.le_zero.1 hs)
    subst this; rfl
  | succ fuel ih =>
    intro s hs hno
    cases s with
    | nil => rfl
    | cons b rest =>
      have h0 := hno [] (b :: rest) rfl
      simp only [replaceAllNlSpaceNL, h0]
      rw [ih rest (by simp at hs; omega) (fun pre t ht => hno (b :: pre) t (by simp [ht]))]

theorem containsNlSpaceNL_of_match {pre t after : Bytes}
    (h : matchNlSpaceNL t = some after) : ContainsNlSpaceNL (pre ++ t) := by
  obtain ⟨ws, hs, hne, hws⟩ := matchNlSpaceNL_some h
  exact ⟨pre, ws, after, by rw [hs], hne, hws⟩

/-- C9 (only whole whitespace-only lines are deleted). Splitting `g` and
`cleanGeneratedCode g` on newlines, the lines of the output arise from those of the input
by deleting lines that are non-empty and consist of spaces and tabs only, so they are a
subsequence; the lines that are empty or contain another byte are the same in both, in
the same order; the first line and the last line are the same in both; and if
`\n[ \t]+\n` has no match in `g` then `cleanGeneratedCode g = g`. -/
theorem cleanGeneratedCode_only_drops_blank_lines (g : Bytes) :
    OnlyBlankLinesDropped (splitLines g) (splitLines (cleanGeneratedCode g)) ∧
    (splitLines (cleanGeneratedCode g)).Sublist (splitLines g) ∧
    (splitLines g).filter (fun l => !decide (IsBlankLine l))
      = (splitLines (cleanGeneratedCode g)).filter (fun l => !decide (IsBlankLine l)) ∧
    (splitLines (cleanGeneratedCode g)).head? = (splitLines g).head? ∧
    (splitLines (cleanGeneratedCode g)).getLast? = (splitLines g).getLast? ∧
    (¬ ContainsNlSpaceNL g → cleanGeneratedCode g = g) := by
  obtain ⟨l0, xs, ys, h1, h2, h3, h4⟩ := replaceAll_lines g.length g (Nat.le_refl _)
  have hrel : OnlyBlankLinesDropped (splitLines g) (splitLines (cleanGeneratedCode g)) := by
    unfold cleanGeneratedCode; rw [h1, h2]; exact .keep l0 h3
  refine ⟨hrel, hrel.sublist, hrel.filter_eq, ?_, ?_, ?_⟩
  · unfold cleanGeneratedCode; rw [h1, h2]; rfl
  · unfold cleanGeneratedCode
    rw [h1, h2, List.getLast?_cons, List.getLast?_cons, h4]
  · intro hno
    apply replaceAll_no_match g.length g (Nat.le_refl _)
    intro pre t ht
    cases hm : matchNlSpaceNL t with
    | none => rfl
    | some after => exact absurd (ht ▸ containsNlSpaceNL_of_match hm) hno


/-- C9, at a concrete input: `"a\nb"` has no match of the pattern and is returned as
it is. -/
theorem cleanGeneratedCode_only_drops_blank_lines_witness :
    cleanGeneratedCode [97, 10, 98] = [97, 10, 98] :=
  (cleanGeneratedCode_only_drops_blank_lines [97, 10, 98]).2.2.2.2.2 (by
    rintro ⟨pre, ws, post, h, hne, _⟩
    have hl := congrArg List.length h
    cases ws with
    | nil => exact hne rfl
    | cons w ws =>
      simp only [List.length_cons, List.length_append, List.length_nil] at hl
      have hpre : pre = [] := List.length_eq_zero.1 (by omega)
      subst hpre
      simp at h)

/-- C5, evaluated at the failing input: on two consecutive whitespace-only lines,
`"\n \n \n"`, the single pass replaces the first match, resumes after its closing newline
and so never sees the second; the result `"\n \n"` still contains a match of
`\n[ \t]+\n`. -/
theorem cleanGeneratedCode_leaves_a_match :
    cleanGeneratedCode [10, 32, 10, 32, 10] = [10, 32, 10] ∧
    ContainsNlSpaceNL (cleanGeneratedCode [10, 32, 10, 32, 10]) := by
  have h : cleanGeneratedCode [10, 32, 10, 32, 10] = [10, 32, 10] := by decide
  refine ⟨h, ?_⟩
  rw [h]
  exact ⟨[], [32], [], rfl, by simp, by simp⟩

/-! ## Lemmas on the driver -/

section Driver

variable {Thrift State Service Includes : Type}

theorem generateCode_cases (w : World Thrift State Service Includes) (outputFile pkg : Str)
    (parsed : Thrift) (state : State) :
    (outputFile = [] ∧ ∃ msg, generateCode w outputFile pkg parsed state
        = (.returned (some msg), [])) ∨
    (outputFile ≠ [] ∧ ∃ err msg, w.wrapServices parsed state = .error err ∧
      generateCode w outputFile pkg parsed state = (.fatal msg, [.wrapServices])) ∨
    (outputFile ≠ [] ∧ ∃ ws err msg, w.wrapServices parsed state = .ok ws ∧
      w.execute (templateData w pkg ws state) = .error err ∧
      generateCode w outputFile pkg parsed state
        = (.returned (some msg), [.wrapServices, .execute (templateData w pkg ws state)])) ∨
    (outputFile ≠ [] ∧ ∃ ws buf err msg, w.wrapServices parsed state = .ok ws ∧
      w.execute (templateData w pkg ws state) = .ok buf ∧
      w.writeFile outputFile (cleanGeneratedCode buf) = some err ∧
      generateCode w outputFile pkg parsed state
        = (.returned (some msg), [.wrapServices, .execute (templateData w pkg ws state),
            .writeFile outputFile (cleanGeneratedCode buf)])) ∨
    (outputFile ≠ [] ∧ ∃ ws buf, w.wrapServices parsed state = .ok ws ∧
      w.execute (templateData w pkg ws state) = .ok buf ∧
      w.writeFile outputFile (cleanGeneratedCode buf) = none ∧
      generateCode w outputFile pkg parsed state
        = (.returned none, [.wrapServices, .execute (templateData w pkg ws state),
            .writeFile outputFile (cleanGeneratedCode buf), .gofmt outputFile])) := by
  by_cases ho : outputFile = []
  · left
    exact ⟨ho, by simp [generateCode, ho]⟩
  · right
    cases hw : w.wrapServices parsed state with
    | error err =>
      left
      exact ⟨ho, err, by simp [generateCode, ho, hw]⟩
    | ok ws =>
      right
      cases he : w.execute (templateData w pkg ws state) with
      | error err =>
        left
        exact ⟨ho, ws, err, by simp [generateCode, ho, hw, he]⟩
      | ok buf =>
        right
        cases hf : w.writeFile outputFile (cleanGeneratedCode buf) with
        | some err =>
          left
          exact ⟨ho, ws, buf, err, by simp [generateCode, ho, hw, he, hf]⟩
        | none =>
          right
          exact ⟨ho, ws, buf, by simp [generateCode, ho, hw, he, hf]⟩

theorem processFile_mkdir_err (w : World Thrift State Service Includes) (generateThrift : Bool)
    (inputFile outputDir : Str) {err : GoError} (h : w.mkdirAll outputDir = some err) :
    ∃ msg, processFile w generateThrift inputFile outputDir
      = (.returned (some msg), [.mkdirAll outputDir]) :=
  by simp [processFile, h]

theorem processFile_thrift_err (w : World Thrift State Service Includes)
    (inputFile outputDir : Str) (hmk : w.mkdirAll outputDir = none) {err : GoError}
    (h : w.runThrift inputFile outputDir = some err) :
    ∃ msg, processFile w true inputFile outputDir
      = (.returned (some msg), [.mkdirAll outputDir, .runThrift inputFile outputDir]) :=
  by simp [processFile, hmk, h]

theorem processFile_parse_err (w : World Thrift State Service Includes) (generateThrift : Bool)
    (inputFile outputDir : Str) (hmk : w.mkdirAll outputDir = none)
    (hth : generateThrift = true → w.runThrift inputFile outputDir = none) {err : GoError}
    (h : w.parseFile inputFile = .error err) :
    ∃ msg, processFile w generateThrift inputFile outputDir
      = (.returned (some msg), .mkdirAll outputDir ::
          thriftEvents generateThrift inputFile outputDir ++ [.parseFile inputFile]) := by
  cases generateThrift with
  | false => simp [processFile, hmk, h, thriftEvents]
  | true => simp [processFile, hmk, h, hth rfl, thriftEvents]

theorem processFile_empty (w : World Thrift State Service Includes) (generateThrift : Bool)
    (inputFile outputDir : Str) (hmk : w.mkdirAll outputDir = none)
    (hth : generateThrift = true → w.runThrift inputFile outputDir = none)
    (h : w.parseFile inputFile = .ok []) :
    processFile w generateThrift inputFile outputDir
      = (.returned none, .mkdirAll outputDir ::
          thriftEvents generateThrift inputFile outputDir ++ [.parseFile inputFile]) := by
  cases generateThrift with
  | false => simp [processFile, hmk, h, thriftEvents]
  | true => simp [processFile, hmk, h, hth rfl, thriftEvents]

theorem processFile_cons (w : World Thrift State Service Includes) (generateThrift : Bool)
    (inputFile outputDir : Str) (hmk : w.mkdirAll outputDir = none)
    (hth : generateThrift = true → w.runThrift inputFile outputDir = none)
    {f : Str} {v : Thrift} {rest : List (Str × Thrift)}
    (h : w.parseFile inputFile = .ok ((f, v) :: rest)) :
    processFile w generateThrift inputFile outputDir
      = ((generateCode w (outputPath w outputDir f) (packageName w.lowerRune f) v
            (w.createStates ((f, v) :: rest) f)).1,
          .mkdirAll outputDir :: thriftEvents generateThrift inputFile outputDir
            ++ [.parseFile inputFile]
            ++ .generateCode (outputPath w outputDir f) (packageName w.lowerRune f)
              :: (generateCode w (outputPath w outputDir f) (packageName w.lowerRune f) v
                (w.createStates ((f, v) :: rest) f)).2) := by
  cases generateThrift with
  | false => simp [processFile, hmk, h, thriftEvents, outputPath]
  | true => simp [processFile, hmk, h, hth rfl, thriftEvents, outputPath]

end Driver

section DriverCases

variable {Thrift State Service Includes : Type}

theorem processFile_cases (w : World Thrift State Service Includes) (generateThrift : Bool)
    (inputFile outputDir : Str) :
    (∃ err msg, w.mkdirAll outputDir = some err ∧
      processFile w generateThrift inputFile outputDir
        = (.returned (some msg), [.mkdirAll outputDir])) ∨
    (w.mkdirAll outputDir = none ∧ generateThrift = true ∧
      ∃ err msg, w.runThrift inputFile outputDir = some err ∧
      processFile w generateThrift inputFile outputDir
        = (.returned (some msg), [.mkdirAll outputDir, .runThrift inputFile outputDir])) ∨
    (w.mkdirAll outputDir = none ∧
      (generateThrift = true → w.runThrift inputFile outputDir = none) ∧
      ∃ err msg, w.parseFile inputFile = .error err ∧
      processFile w generateThrift inputFile outputDir
        = (.returned (some msg), .mkdirAll outputDir ::
            thriftEvents generateThrift inputFile outputDir ++ [.parseFile inputFile])) ∨
    (w.mkdirAll outputDir = none ∧
      (generateThrift = true → w.runThrift inputFile outputDir = none) ∧
      w.parseFile inputFile = .ok [] ∧
      processFile w generateThrift inputFile outputDir
        = (.returned none, .mkdirAll outputDir ::
            thriftEvents generateThrift inputFile outputDir ++ [.parseFile inputFile])) ∨
    (w.mkdirAll outputDir = none ∧
      (generateThrift = true → w.runThrift inputFile outputDir = none) ∧
      ∃ f v rest, w.parseFile inputFile = .ok ((f, v) :: rest) ∧
      processFile w generateThrift inputFile outputDir
        = ((generateCode w (outputPath w outputDir f) (packageName w.lowerRune f) v
              (w.createStates ((f, v) :: rest) f)).1,
            .mkdirAll outputDir :: thriftEvents generateThrift inputFile outputDir
              ++ [.parseFile inputFile]
              ++ .generateCode (outputPath w outputDir f) (packageName w.lowerRune f)
                :: (generateCode w (outputPath w outputDir f) (packageName w.lowerRune f) v
                  (w.createStates ((f, v) :: rest) f)).2)) := by
  cases hmk : w.mkdirAll outputDir with
  | some err =>
    left
    obtain ⟨msg, h⟩ := processFile_mkdir_err w generateThrift inputFile outputDir hmk
    exact ⟨err, msg, rfl, h⟩
  | none =>
    right
    by_cases hth : generateThrift = true → w.runThrift inputFile outputDir = none
    · right
      cases hp : w.parseFile inputFile with
      | error err =>
        left
        obtain ⟨msg, h⟩ := processFile_parse_err w generateThrift inputFile outputDir hmk hth hp
        exact ⟨rfl, hth, err, msg, rfl, h⟩
      | ok parsed =>
        right
        cases parsed with
        | nil =>
          left
          exact ⟨rfl, hth, rfl, processFile_empty w generateThrift inputFile outputDir hmk hth hp⟩
        | cons fv rest =>
          right
          obtain ⟨f, v⟩ := fv
          exact ⟨rfl, hth, f, v, rest, rfl,
            processFile_cons w generateThrift inputFile outputDir hmk hth hp⟩
    · left
      have hgt : generateThrift = true := by
        by_contra hne
        exact hth (fun h => absurd h hne)
      cases hr : w.runThrift inputFile outputDir with
      | none => exact absurd (fun _ => hr) hth
      | some err =>
        subst hgt
        obtain ⟨msg, h⟩ := processFile_thrift_err w inputFile outputDir hmk hr
        exact ⟨rfl, rfl, err, msg, rfl, h⟩

theorem writeFile_mem_generateCode (w : World Thrift State Service Includes)
    (outputFile pkg : Str) (parsed : Thrift) (state : State) (path : Str) (content : Bytes)
    (h : Event.writeFile path content ∈ (generateCode w outputFile pkg parsed state).2) :
    path = outputFile ∧ outputFile ≠ [] ∧ ∃ ws buf, w.wrapServices parsed state = .ok ws ∧
      w.execute (templateData w pkg ws state) = .ok buf ∧ content = cleanGeneratedCode buf := by
  rcases generateCode_cases w outputFile pkg parsed state with
    ⟨_, msg, hg⟩ | ⟨_, err, msg, _, hg⟩ | ⟨_, ws, err, msg, _, _, hg⟩ |
    ⟨ho, ws, buf, err, msg, hw, he, _, hg⟩ | ⟨ho, ws, buf, hw, he, _, hg⟩
  all_goals rw [hg] at h
  all_goals simp at h
  · exact ⟨h.1, ho, ws, buf, hw, he, h.2⟩
  · exact ⟨h.1, ho, ws, buf, hw, he, h.2⟩

theorem gofmt_mem_generateCode (w : World Thrift State Service Includes)
    (outputFile pkg : Str) (parsed : Thrift) (state : State) (path : Str)
    (h : Event.gofmt path ∈ (generateCode w outputFile pkg parsed state).2) :
    path = outputFile ∧ outputFile ≠ [] ∧ ∃ ws buf, w.wrapServices parsed state = .ok ws ∧
      w.execute (templateData w pkg ws state) = .ok buf ∧
      w.writeFile outputFile (cleanGeneratedCode buf) = none := by
  rcases generateCode_cases w outputFile pkg parsed state with
    ⟨_, msg, hg⟩ | ⟨_, err, msg, _, hg⟩ | ⟨_, ws, err, msg, _, _, hg⟩ |
    ⟨ho, ws, buf, err, msg, hw, he, _, hg⟩ | ⟨ho, ws, buf, hw, he, hf, hg⟩
  all_goals rw [hg] at h
  all_goals simp at h
  exact ⟨h, ho, ws, buf, hw, he, hf⟩

theorem writeFile_mem_processFile (w : World Thrift State Service Includes)
    (generateThrift : Bool) (inputFile outputDir : Str) (path : Str) (content : Bytes)
    (h : Event.writeFile path content ∈ (processFile w generateThrift inputFile outputDir).2) :
    ∃ f v rest, w.parseFile inputFile = .ok ((f, v) :: rest) ∧
      Event.writeFile path content ∈
        (generateCode w (outputPath w outputDir f) (packageName w.lowerRune f) v
          (w.createStates ((f, v) :: rest) f)).2 := by
  rcases processFile_cases w generateThrift inputFile outputDir with
    ⟨err, msg, _, hp⟩ | ⟨_, _, err, msg, _, hp⟩ | ⟨_, _, err, msg, _, hp⟩ |
    ⟨_, _, _, hp⟩ | ⟨_, _, f, v, rest, hparse, hp⟩
  all_goals rw [hp] at h
  · simp at h
  · simp at h
  · cases generateThrift <;> simp [thriftEvents] at h
  · cases generateThrift <;> simp [thriftEvents] at h
  · refine ⟨f, v, rest, hparse, ?_⟩
    cases generateThrift <;> simpa [thriftEvents] using h

end DriverCases

/-! ## The driver: output layout, stages, output on failure -/

section DriverClaims

variable {Thrift State Service Includes : Type}

theorem Clean_ne_nil (path : Str) : Clean path ≠ [] := by
  unfold Clean
  simp only
  split
  · simp
  · split <;> split <;> first | assumption | simp

theorem outputPath_ne_nil (w : World Thrift State Service Includes) (outputDir f : Str) :
    outputPath w outputDir f ≠ [] := by
  unfold outputPath Join
  split
  · rename_i h
    have hmem : ("tchan-".toList ++ packageName w.lowerRune f ++ ".go".toList) ∈
        List.dropWhile (fun e : Str => e.isEmpty)
          [outputDir, packageName w.lowerRune f,
            "tchan-".toList ++ packageName w.lowerRune f ++ ".go".toList] := by
      simp only [List.dropWhile_cons, List.dropWhile_nil]
      split
      · split
        · split
          · rename_i h3
            simp at h3
          · simp
        · simp
      · simp
    rw [h] at hmem
    cases hmem
  · exact Clean_ne_nil _

/-- C1 (output layout). When the directory is created, the optional upstream compiler
succeeds, the parser answers a map whose selected entry is the file name `f`, and
`wrapServices` and the template execution succeed with buffer `buf`, then `processFile`
writes the cleaned `buf` to `filepath.Join(outputDir, p, "tchan-" + p + ".go")` with
`p = packageName(f)`, and that is the only path it writes. In every run, every file that
`processFile` writes is at that path for the selected file name, and a run that returns
nil for a non-empty parsed map writes exactly that one path. `p` is the lower-cased last
path element of `f` without its final extension: for a last element `stem.ext` it is the
lower-cased `stem`, for a last element without a dot it is the lower-cased element. It
does not depend on the directory part of `f`, and two names that differ only in letter
case give the same `p`. The hypotheses say that the lower-case table neither produces nor
changes `/` and `.`. -/
theorem processFile_output_layout (w : World Thrift State Service Includes)
    (hsep : ∀ c, w.lowerRune c = '/' ↔ c = '/') (hdot : ∀ c, w.lowerRune c = '.' ↔ c = '.')
    (generateThrift : Bool) (inputFile outputDir : Str) :
    (∀ f v rest ws buf, w.mkdirAll outputDir = none →
      (generateThrift = true → w.runThrift inputFile outputDir = none) →
      w.parseFile inputFile = .ok ((f, v) :: rest) →
      w.wrapServices v (w.createStates ((f, v) :: rest) f) = .ok ws →
      w.execute (templateData w (packageName w.lowerRune f) ws
        (w.createStates ((f, v) :: rest) f)) = .ok buf →
      Event.writeFile
          (Join [outputDir, packageName w.lowerRune f,
            "tchan-".toList ++ packageName w.lowerRune f ++ ".go".toList])
          (cleanGeneratedCode buf)
        ∈ (processFile w generateThrift inputFile outputDir).2 ∧
      writtenPaths (processFile w generateThrift inputFile outputDir).2
        = [Join [outputDir, packageName w.lowerRune f,
            "tchan-".toList ++ packageName w.lowerRune f ++ ".go".toList]]) ∧
    (∀ path content,
      Event.writeFile path content ∈ (processFile w generateThrift inputFile outputDir).2 →
      ∃ f v rest, w.parseFile inputFile = .ok ((f, v) :: rest) ∧
        path = Join [outputDir, packageName w.lowerRune f,
          "tchan-".toList ++ packageName w.lowerRune f ++ ".go".toList]) ∧
    (∀ f v rest, w.parseFile inputFile = .ok ((f, v) :: rest) →
      (processFile w generateThrift inputFile outputDir).1 = .returned none →
      writtenPaths (processFile w generateThrift inputFile outputDir).2
        = [Join [outputDir, packageName w.lowerRune f,
            "tchan-".toList ++ packageName w.lowerRune f ++ ".go".toList]]) ∧
    (∀ stem ext : Str, '/' ∉ stem → '/' ∉ ext → '.' ∉ ext →
      packageName w.lowerRune (stem ++ '.' :: ext) = ToLower w.lowerRune stem) ∧
    (∀ name : Str, '/' ∉ name → '.' ∉ name →
      packageName w.lowerRune name = ToLower w.lowerRune name) ∧
    (∀ dir name : Str, '/' ∉ name →
      packageName w.lowerRune (dir ++ '/' :: name) = packageName w.lowerRune name) ∧
    (∀ f g : Str, ToLower w.lowerRune f = ToLower w.lowerRune g →
      packageName w.lowerRune f = packageName w.lowerRune g) := by
  refine ⟨?_, ?_, ?_, ?_, ?_, ?_, ?_⟩
  · intro f v rest ws buf hmk hth hparse hw he
    rw [processFile_cons w generateThrift inputFile outputDir hmk hth hparse]
    rcases generateCode_cases w (outputPath w outputDir f) (packageName w.lowerRune f) v
        (w.createStates ((f, v) :: rest) f) with
      ⟨ho, _⟩ | ⟨_, err, msg, hw2, _⟩ | ⟨_, ws2, err, msg, hw2, he2, _⟩ |
      ⟨_, ws2, buf2, err, msg, hw2, he2, _, hg⟩ | ⟨_, ws2, buf2, hw2, he2, _, hg⟩
    · exact absurd ho (outputPath_ne_nil w outputDir f)
    · rw [hw] at hw2; cases hw2
    · rw [hw] at hw2; cases hw2
      rw [he] at he2; cases he2
    · rw [hw] at hw2; cases hw2
      rw [he] at he2; cases he2
      rw [hg]
      cases generateThrift <;> simp [thriftEvents, writtenPaths, outputPath]
    · rw [hw] at hw2; cases hw2
      rw [he] at he2; cases he2
      rw [hg]
      cases generateThrift <;> simp [thriftEvents, writtenPaths, outputPath]
  · intro path content h
    obtain ⟨f, v, rest, hparse, hmem⟩ :=
      writeFile_mem_processFile w generateThrift inputFile outputDir path content h
    exact ⟨f, v, rest, hparse, (writeFile_mem_generateCode w _ _ _ _ path content hmem).1⟩
  · intro f v rest hparse hret
    rcases processFile_cases w generateThrift inputFile outputDir with
      ⟨err, msg, _, hp⟩ | ⟨_, _, err, msg, _, hp⟩ | ⟨_, _, err, msg, hpe, hp⟩ |
      ⟨_, _, hpe, hp⟩ | ⟨_, _, f2, v2, rest2, hparse2, hp⟩
    · rw [hp] at hret; simp at hret
    · rw [hp] at hret; simp at hret
    · rw [hp] at hret; simp at hret
    · rw [hpe] at hparse; simp at hparse
    · rw [hparse2] at hparse
      simp only [Except.ok.injEq, List.cons.injEq, Prod.mk.injEq] at hparse
      obtain ⟨⟨hf, hv⟩, hrest⟩ := hparse
      subst hf hv hrest
      rw [hp] at hret ⊢
      simp only at hret
      rcases generateCode_cases w (outputPath w outputDir f2) (packageName w.lowerRune f2) v2
          (w.createStates ((f2, v2) :: rest2) f2) with
        ⟨_, msg, hg⟩ | ⟨_, err, msg, _, hg⟩ | ⟨_, ws, err, msg, _, _, hg⟩ |
        ⟨_, ws, buf, err, msg, _, _, _, hg⟩ | ⟨_, ws, buf, _, _, _, hg⟩
      · rw [hg] at hret; simp at hret
      · rw [hg] at hret; simp at hret
      · rw [hg] at hret; simp at hret
      · rw [hg] at hret; simp at hret
      · rw [hg]
        cases generateThrift <;> simp [thriftEvents, writtenPaths, outputPath]
  · intro stem ext h1 h2 h3
    exact packageName_dot w.lowerRune stem ext h1 h2 h3
  · intro name h1 h2
    exact packageName_no_dot w.lowerRune name h1 h2
  · intro dir name h
    exact packageName_dir w.lowerRune dir name h
  · intro f g hfg
    rw [packageName_map w.lowerRune hsep hdot f, packageName_map w.lowerRune hsep hdot g]
    unfold ToLower at hfg
    rw [hfg]

/-- C1, at a concrete input: a world in which every stage succeeds, with the ASCII
lower-case table; the parser answers `IDL/KeyValue.THRIFT` and the output directory is
`gen-go`. The run writes the cleaned template output, the package clause of `keyvalue`,
to `gen-go/keyvalue/tchan-keyvalue.go`, and writes nothing else. -/
theorem processFile_output_layout_witness :
    (∃ content, Event.writeFile "gen-go/keyvalue/tchan-keyvalue.go".toList content
      ∈ (processFile (demoWorld (.ok [("IDL/KeyValue.THRIFT".toList, "kv".toList)]))
          true "IDL/KeyValue.THRIFT".toList "gen-go".toList).2) ∧
    writtenPaths (processFile (demoWorld (.ok [("IDL/KeyValue.THRIFT".toList, "kv".toList)]))
        true "IDL/KeyValue.THRIFT".toList "gen-go".toList).2
      = ["gen-go/keyvalue/tchan-keyvalue.go".toList] :=
  have hpath : Join ["gen-go".toList, packageName Char.toLower "IDL/KeyValue.THRIFT".toList,
      "tchan-".toList ++ packageName Char.toLower "IDL/KeyValue.THRIFT".toList ++ ".go".toList]
      = "gen-go/keyvalue/tchan-keyvalue.go".toList := by decide
  have h := (processFile_output_layout
    (demoWorld (.ok [("IDL/KeyValue.THRIFT".toList, "kv".toList)]))
    (toLower_eq_iff '/' (by decide)) (toLower_eq_iff '.' (by decide))
    true "IDL/KeyValue.THRIFT".toList "gen-go".toList).1
    "IDL/KeyValue.THRIFT".toList "kv".toList [] [] _ rfl (fun _ => rfl) rfl rfl rfl
  ⟨⟨_, hpath ▸ h.1⟩, hpath ▸ h.2⟩

theorem generateCode_run_thrift_free (w : World Thrift State Service Includes)
    (outputFile pkg : Str) (parsed : Thrift) (state : State) :
    (generateCode w outputFile pkg parsed state).2.any Event.isRunThrift = false ∧
    (generateCode w outputFile pkg parsed state).2.countP Event.isGenerateCode = 0 ∧
    (generateCode w outputFile pkg parsed state).2.countP Event.isWriteFile ≤ 1 := by
  rcases generateCode_cases w outputFile pkg parsed state with
    ⟨_, msg, hg⟩ | ⟨_, err, msg, _, hg⟩ | ⟨_, ws, err, msg, _, _, hg⟩ |
    ⟨_, ws, buf, err, msg, _, _, _, hg⟩ | ⟨_, ws, buf, _, _, _, hg⟩
  all_goals rw [hg]
  all_goals simp [Event.isRunThrift, Event.isGenerateCode, Event.isWriteFile, List.countP_cons]

/-- C3 (every stage failure is fatal). With `r` the outcome and trace of `processFile`:
a failing `os.MkdirAll` ends the run in failure with nothing after it; with
`generateThrift` a failing upstream compiler ends the run in failure before the parser is
called; a failing parser ends the run in failure before `generateCode` is called; the
outcome of `generateCode` (an error, or the fatal exit when `wrapServices` fails) is the
outcome of the run and nothing follows `generateCode`. The upstream compiler runs exactly
when the directory was created and `generateThrift` is true, and never after the parser.
When every executed stage succeeds the run returns nil. -/
theorem processFile_stage_failure_is_fatal (w : World Thrift State Service Includes)
    (generateThrift : Bool) (inputFile outputDir : Str) :
    (∀ err, w.mkdirAll outputDir = some err →
      (processFile w generateThrift inputFile outputDir).1.failed = true ∧
      (processFile w generateThrift inputFile outputDir).2 = [.mkdirAll outputDir]) ∧
    (∀ err, w.mkdirAll outputDir = none → generateThrift = true →
      w.runThrift inputFile outputDir = some err →
      (processFile w generateThrift inputFile outputDir).1.failed = true ∧
      (processFile w generateThrift inputFile outputDir).2
        = [.mkdirAll outputDir, .runThrift inputFile outputDir]) ∧
    (∀ err, w.mkdirAll outputDir = none →
      (generateThrift = true → w.runThrift inputFile outputDir = none) →
      w.parseFile inputFile = .error err →
      (processFile w generateThrift inputFile outputDir).1.failed = true ∧
      (processFile w generateThrift inputFile outputDir).2
        = .mkdirAll outputDir :: thriftEvents generateThrift inputFile outputDir
            ++ [.parseFile inputFile]) ∧
    (∀ f v rest, w.mkdirAll outputDir = none →
      (generateThrift = true → w.runThrift inputFile outputDir = none) →
      w.parseFile inputFile = .ok ((f, v) :: rest) →
      (processFile w generateThrift inputFile outputDir).1
        = (generateCode w (outputPath w outputDir f) (packageName w.lowerRune f) v
            (w.createStates ((f, v) :: rest) f)).1 ∧
      (processFile w generateThrift inputFile outputDir).2
        = .mkdirAll outputDir :: thriftEvents generateThrift inputFile outputDir
            ++ [.parseFile inputFile]
            ++ .generateCode (outputPath w outputDir f) (packageName w.lowerRune f)
              :: (generateCode w (outputPath w outputDir f) (packageName w.lowerRune f) v
                  (w.createStates ((f, v) :: rest) f)).2 ∧
      (∀ err, w.wrapServices v (w.createStates ((f, v) :: rest) f) = .error err →
        ∃ msg, (processFile w generateThrift inputFile outputDir).1 = .fatal msg)) ∧
    ((processFile w generateThrift inputFile outputDir).2.any Event.isRunThrift = true ↔
      (w.mkdirAll outputDir = none ∧ generateThrift = true)) ∧
    (((processFile w generateThrift inputFile outputDir).2.dropWhile
        (fun e => !e.isParseFile)).any Event.isRunThrift = false) ∧
    (∀ parsed, w.mkdirAll outputDir = none →
      (generateThrift = true → w.runThrift inputFile outputDir = none) →
      w.parseFile inputFile = .ok parsed →
      (∀ f v rest, parsed = (f, v) :: rest →
        (generateCode w (outputPath w outputDir f) (packageName w.lowerRune f) v
          (w.createStates ((f, v) :: rest) f)).1 = .returned none) →
      (processFile w generateThrift inputFile outputDir).1 = .returned none) := by
  refine ⟨?_, ?_, ?_, ?_, ?_, ?_, ?_⟩
  · intro err h
    obtain ⟨msg, hp⟩ := processFile_mkdir_err w generateThrift inputFile outputDir h
    rw [hp]; exact ⟨rfl, rfl⟩
  · intro err hmk hgt h
    subst hgt
    obtain ⟨msg, hp⟩ := processFile_thrift_err w inputFile outputDir hmk h
    rw [hp]; exact ⟨rfl, rfl⟩
  · intro err hmk hth h
    obtain ⟨msg, hp⟩ := processFile_parse_err w generateThrift inputFile outputDir hmk hth h
    rw [hp]; exact ⟨rfl, rfl⟩
  · intro f v rest hmk hth h
    rw [processFile_cons w generateThrift inputFile outputDir hmk hth h]
    refine ⟨rfl, rfl, ?_⟩
    intro err hw
    rcases generateCode_cases w (outputPath w outputDir f) (packageName w.lowerRune f) v
        (w.createStates ((f, v) :: rest) f) with
      ⟨ho, _⟩ | ⟨_, err, msg, _, hg⟩ | ⟨_, ws, err, msg, hw2, _, _⟩ |
      ⟨_, ws, buf, err, msg, hw2, _, _, _⟩ | ⟨_, ws, buf, hw2, _, _, _⟩
    · exact absurd ho (outputPath_ne_nil w outputDir f)
    · exact ⟨msg, by rw [hg]⟩
    · rw [hw] at hw2; cases hw2
    · rw [hw] at hw2; cases hw2
    · rw [hw] at hw2; cases hw2
  · rcases processFile_cases w generateThrift inputFile outputDir with
      ⟨err, msg, hmk, hp⟩ | ⟨hmk, hgt, err, msg, _, hp⟩ | ⟨hmk, _, err, msg, _, hp⟩ |
      ⟨hmk, _, _, hp⟩ | ⟨hmk, _, f, v, rest, _, hp⟩
    · rw [hp]; simp [Event.isRunThrift, hmk]
    · rw [hp]; simp [Event.isRunThrift, hmk, hgt]
    · rw [hp]; cases generateThrift <;> simp [Event.isRunThrift, hmk, thriftEvents]
    · rw [hp]; cases generateThrift <;> simp [Event.isRunThrift, hmk, thriftEvents]
    · rw [hp]
      have hg := (generateCode_run_thrift_free w (outputPath w outputDir f)
        (packageName w.lowerRune f) v (w.createStates ((f, v) :: rest) f)).1
      cases generateThrift <;> simp [Event.isRunThrift, hmk, thriftEvents, hg]
  · rcases processFile_cases w generateThrift inputFile outputDir with
      ⟨err, msg, hmk, hp⟩ | ⟨hmk, hgt, err, msg, _, hp⟩ | ⟨hmk, _, err, msg, _, hp⟩ |
      ⟨hmk, _, _, hp⟩ | ⟨hmk, _, f, v, rest, _, hp⟩
    · rw [hp]; simp [Event.isRunThrift, Event.isParseFile, List.dropWhile]
    · rw [hp]; simp [Event.isRunThrift, Event.isParseFile, List.dropWhile]
    · rw [hp]
      cases generateThrift <;>
        simp [Event.isRunThrift, Event.isParseFile, thriftEvents, List.dropWhile]
    · rw [hp]
      cases generateThrift <;>
        simp [Event.isRunThrift, Event.isParseFile, thriftEvents, List.dropWhile]
    · rw [hp]
      have hg := (generateCode_run_thrift_free w (outputPath w outputDir f)
        (packageName w.lowerRune f) v (w.createStates ((f, v) :: rest) f)).1
      cases generateThrift <;>
        simp [Event.isRunThrift, Event.isParseFile, thriftEvents, List.dropWhile, hg]
  · intro parsed hmk hth hparse hgen
    cases parsed with
    | nil => rw [processFile_empty w generateThrift inputFile outputDir hmk hth hparse]
    | cons fv rest =>
      obtain ⟨f, v⟩ := fv
      rw [processFile_cons w generateThrift inputFile outputDir hmk hth hparse]
      exact hgen f v rest rfl

/-- C3, at a concrete input: a world whose `os.MkdirAll` fails. -/
theorem processFile_stage_failure_is_fatal_witness :
    (processFile { demoWorld (.ok [("a.thrift".toList, "a".toList)]) with
        mkdirAll := fun _ => some "permission denied" }
      true "a.thrift".toList "gen-go".toList).1.failed = true ∧
    (processFile { demoWorld (.ok [("a.thrift".toList, "a".toList)]) with
        mkdirAll := fun _ => some "permission denied" }
      true "a.thrift".toList "gen-go".toList).2 = [.mkdirAll "gen-go".toList] :=
  (processFile_stage_failure_is_fatal { demoWorld (.ok [("a.thrift".toList, "a".toList)]) with
        mkdirAll := fun _ => some "permission denied" }
      true "a.thrift".toList "gen-go".toList).1 "permission denied" rfl

/-- C4 (no output on a resolution or emission failure). In `generateCode` an empty
`outputFile`, a failing `wrapServices` and a failing template execution each end the call
in failure with no write and no gofmt run. Whenever the trace has a write or a gofmt run,
`outputFile` is non-empty, `wrapServices` and the template execution both succeeded, and
the trace is those two stages, then the write of the cleaned buffer to `outputFile`, then
at most the gofmt run on it. -/
theorem generateCode_no_output_on_failure (w : World Thrift State Service Includes)
    (outputFile pkg : Str) (parsed : Thrift) (state : State) :
    (outputFile = [] →
      (generateCode w outputFile pkg parsed state).2 = [] ∧
      (generateCode w outputFile pkg parsed state).1.failed = true) ∧
    (∀ err, w.wrapServices parsed state = .error err →
      (generateCode w outputFile pkg parsed state).2.any Event.isOutput = false ∧
      (generateCode w outputFile pkg parsed state).1.failed = true) ∧
    (∀ ws err, w.wrapServices parsed state = .ok ws →
      w.execute (templateData w pkg ws state) = .error err →
      (generateCode w outputFile pkg parsed state).2.any Event.isOutput = false ∧
      (generateCode w outputFile pkg parsed state).1.failed = true) ∧
    ((generateCode w outputFile pkg parsed state).2.any Event.isOutput = true →
      outputFile ≠ [] ∧ ∃ ws buf, w.wrapServices parsed state = .ok ws ∧
        w.execute (templateData w pkg ws state) = .ok buf ∧
        ∃ tail, (generateCode w outputFile pkg parsed state).2
          = [.wrapServices, .execute (templateData w pkg ws state),
              .writeFile outputFile (cleanGeneratedCode buf)] ++ tail ∧
          (tail = [] ∨ tail = [.gofmt outputFile])) := by
  rcases generateCode_cases w outputFile pkg parsed state with
    ⟨ho, msg, hg⟩ | ⟨ho, err, msg, hw, hg⟩ | ⟨ho, ws, err, msg, hw, he, hg⟩ |
    ⟨ho, ws, buf, err, msg, hw, he, hf, hg⟩ | ⟨ho, ws, buf, hw, he, hf, hg⟩
  · rw [hg]
    refine ⟨fun _ => ⟨rfl, rfl⟩, fun _ _ => ⟨rfl, rfl⟩, fun _ _ _ _ => ⟨rfl, rfl⟩, ?_⟩
    intro h; simp at h
  · rw [hg]
    refine ⟨fun h => absurd h ho, fun _ _ => ⟨rfl, rfl⟩, fun _ _ _ _ => ⟨rfl, rfl⟩, ?_⟩
    intro h; simp [Event.isOutput] at h
  · rw [hg]
    refine ⟨fun h => absurd h ho, fun _ _ => ⟨rfl, rfl⟩, fun _ _ _ _ => ⟨rfl, rfl⟩, ?_⟩
    intro h; simp [Event.isOutput] at h
  · rw [hg]
    refine ⟨fun h => absurd h ho, ?_, ?_, ?_⟩
    · intro err2 hw2; rw [hw] at hw2; cases hw2
    · intro ws2 err2 hw2 he2
      rw [hw] at hw2; cases hw2
      rw [he] at he2; cases he2
    · intro _
      exact ⟨ho, ws, buf, hw, he, [], rfl, Or.inl rfl⟩
  · rw [hg]
    refine ⟨fun h => absurd h ho, ?_, ?_, ?_⟩
    · intro err2 hw2; rw [hw] at hw2; cases hw2
    · intro ws2 err2 hw2 he2
      rw [hw] at hw2; cases hw2
      rw [he] at he2; cases he2
    · intro _
      exact ⟨ho, ws, buf, hw, he, [.gofmt outputFile], rfl, Or.inr rfl⟩

/-- C4, at a concrete input: a world whose `wrapServices` rejects the services. -/
theorem generateCode_no_output_on_failure_witness :
    (generateCode { demoWorld (.ok []) with
        wrapServices := fun _ _ => .error "cyclic inheritance" }
      "gen-go/a/tchan-a.go".toList "a".toList "a".toList ()).2.any Event.isOutput = false ∧
    (generateCode { demoWorld (.ok []) with
        wrapServices := fun _ _ => .error "cyclic inheritance" }
      "gen-go/a/tchan-a.go".toList "a".toList "a".toList ()).1.failed = true :=
  (generateCode_no_output_on_failure { demoWorld (.ok []) with
        wrapServices := fun _ _ => .error "cyclic inheritance" }
      "gen-go/a/tchan-a.go".toList "a".toList "a".toList ()).2.1 "cyclic inheritance" rfl

/-- C8 (single-file generation). Once the directory exists, the optional upstream
compiler has succeeded and the parser has answered `parsed`: for a non-empty `parsed`,
however long, `generateCode` is called exactly once, for an entry of `parsed` (its file
name gives the package and output path, its model and state are the arguments), the run
ends as that call ends, and at most one file is written; for an empty `parsed`,
`generateCode` is not called and the run returns nil. -/
theorem processFile_single_generateCode (w : World Thrift State Service Includes)
    (generateThrift : Bool) (inputFile outputDir : Str) (parsed : List (Str × Thrift))
    (hmk : w.mkdirAll outputDir = none)
    (hth : generateThrift = true → w.runThrift inputFile outputDir = none)
    (hparse : w.parseFile inputFile = .ok parsed) :
    (parsed ≠ [] →
      (processFile w generateThrift inputFile outputDir).2.countP Event.isGenerateCode = 1 ∧
      (∃ f v, (f, v) ∈ parsed ∧
        Event.generateCode (outputPath w outputDir f) (packageName w.lowerRune f)
          ∈ (processFile w generateThrift inputFile outputDir).2 ∧
        (processFile w generateThrift inputFile outputDir).1
          = (generateCode w (outputPath w outputDir f) (packageName w.lowerRune f) v
              (w.createStates parsed f)).1) ∧
      (processFile w generateThrift inputFile outputDir).2.countP Event.isWriteFile ≤ 1) ∧
    (parsed = [] →
      (processFile w generateThrift inputFile outputDir).2.countP Event.isGenerateCode = 0 ∧
      (processFile w generateThrift inputFile outputDir).1 = .returned none) := by
  cases parsed with
  | nil =>
    refine ⟨fun h => absurd rfl h, fun _ => ?_⟩
    rw [processFile_empty w generateThrift inputFile outputDir hmk hth hparse]
    cases generateThrift <;> simp [thriftEvents, Event.isGenerateCode, List.countP_cons]
  | cons fv rest =>
    obtain ⟨f, v⟩ := fv
    refine ⟨fun _ => ?_, fun h => by cases h⟩
    rw [processFile_cons w generateThrift inputFile outputDir hmk hth hparse]
    obtain ⟨_, hg, hwf⟩ := generateCode_run_thrift_free w (outputPath w outputDir f)
      (packageName w.lowerRune f) v (w.createStates ((f, v) :: rest) f)
    refine ⟨?_, ⟨f, v, List.mem_cons_self _ _, ?_, rfl⟩, ?_⟩
    · cases generateThrift <;>
        simp [thriftEvents, Event.isGenerateCode, List.countP_cons, List.countP_append, hg]
    · simp
    · cases generateThrift <;>
        simpa [thriftEvents, Event.isWriteFile, List.countP_cons, List.countP_append] using hwf

/-- C8, at a concrete input: a parsed map with two files, the input and one include. -/
theorem processFile_single_generateCode_witness :
    (processFile (demoWorld (.ok [("svc.thrift".toList, "svc".toList),
        ("shared.thrift".toList, "shared".toList)]))
      false "svc.thrift".toList "gen-go".toList).2.countP Event.isGenerateCode = 1 :=
  ((processFile_single_generateCode (demoWorld (.ok [("svc.thrift".toList, "svc".toList),
        ("shared.thrift".toList, "shared".toList)]))
      false "svc.thrift".toList "gen-go".toList _ rfl (fun _ => rfl) rfl).1 (by simp)).1

/-- C6, evaluated at the failing input: `a.thrift` and `b.thrift` both declare the
package `shared`, the package of their Apache Thrift output. Processed with the same
output directory they are written to `gen-go/a/tchan-a.go` and `gen-go/b/tchan-b.go`,
neither under `shared`, and the template receives the `Package` values `a` and `b`: path
and package follow the file name and the declared package is never read. -/
theorem output_path_follows_file_name_not_declared_package :
    writtenPaths (processFile (demoWorld (.ok [("a.thrift".toList, "shared".toList)]))
        false "a.thrift".toList "gen-go".toList).2 = ["gen-go/a/tchan-a.go".toList] ∧
    writtenPaths (processFile (demoWorld (.ok [("b.thrift".toList, "shared".toList)]))
        false "b.thrift".toList "gen-go".toList).2 = ["gen-go/b/tchan-b.go".toList] ∧
    executedPackages (processFile (demoWorld (.ok [("a.thrift".toList, "shared".toList)]))
        false "a.thrift".toList "gen-go".toList).2 = ["a".toList] ∧
    executedPackages (processFile (demoWorld (.ok [("b.thrift".toList, "shared".toList)]))
        false "b.thrift".toList "gen-go".toList).2 = ["b".toList] ∧
    ¬ (∀ f g : Str,
        writtenPaths (processFile (demoWorld (.ok [(f, "shared".toList)]))
            false f "gen-go".toList).2
          = writtenPaths (processFile (demoWorld (.ok [(g, "shared".toList)]))
            false g "gen-go".toList).2) := by
  refine ⟨by decide, by decide, by decide, by decide, ?_⟩
  intro h
  exact absurd (h "a.thrift".toList "b.thrift".toList) (by decide)

/-- C2, evaluated at the failing input: the parsed map of `svc.thrift` holds the input
file and its include `shared.thrift`. A run whose `range` loop visits `svc.thrift` first
writes `gen-go/svc/tchan-svc.go`; a run on the same map whose loop visits `shared.thrift`
first writes `gen-go/shared/tchan-shared.go` instead. -/
theorem processFile_output_depends_on_iteration_order :
    List.Perm [("svc.thrift".toList, "svc".toList), ("shared.thrift".toList, "shared".toList)]
      [("shared.thrift".toList, "shared".toList), ("svc.thrift".toList, "svc".toList)] ∧
    writtenPaths (processFile (demoWorld (.ok [("svc.thrift".toList, "svc".toList),
        ("shared.thrift".toList, "shared".toList)]))
      false "svc.thrift".toList "gen-go".toList).2 = ["gen-go/svc/tchan-svc.go".toList] ∧
    writtenPaths (processFile (demoWorld (.ok [("shared.thrift".toList, "shared".toList),
        ("svc.thrift".toList, "svc".toList)]))
      false "svc.thrift".toList "gen-go".toList).2 = ["gen-go/shared/tchan-shared.go".toList] ∧
    (processFile (demoWorld (.ok [("svc.thrift".toList, "svc".toList),
        ("shared.thrift".toList, "shared".toList)]))
      false "svc.thrift".toList "gen-go".toList).2
      ≠ (processFile (demoWorld (.ok [("shared.thrift".toList, "shared".toList),
        ("svc.thrift".toList, "svc".toList)]))
      false "svc.thrift".toList "gen-go".toList).2 := by
  refine ⟨List.Perm.swap _ _ _, by decide, by decide, ?_⟩
  intro h
  have := congrArg writtenPaths h
  revert this
  decide

end DriverClaims

/-! ## The codec of `HealthCheckRes` -/

section Codec

variable {σ : Type}

theorem writeField1_faithful {P : TProtocol σ} {pending : σ → List Token}
    (hF : Faithful P pending) (p : HealthCheckRes) (s : σ) :
    (writeField1 P p s).1 = none ∧
    pending (writeField1 P p s).2
      = pending s ++ [.fieldBegin "healthy" BOOL 1, .bool p.Healthy, .fieldEnd] := by
  unfold writeField1
  obtain ⟨a1, b1⟩ := hF.writeFieldBegin "healthy" BOOL 1 s
  cases h1 : P.WriteFieldBegin "healthy" BOOL 1 s with
  | mk e1 s1 =>
    rw [h1] at a1 b1
    simp only at a1 b1
    subst a1
    obtain ⟨a2, b2⟩ := hF.writeBool p.Healthy s1
    cases h2 : P.WriteBool p.Healthy s1 with
    | mk e2 s2 =>
      rw [h2] at a2 b2
      simp only at a2 b2
      subst a2
      obtain ⟨a3, b3⟩ := hF.writeFieldEnd s2
      cases h3 : P.WriteFieldEnd s2 with
      | mk e3 s3 =>
        rw [h3] at a3 b3
        simp only at a3 b3
        subst a3
        simp only [h2, h3, true_and]
        rw [b3, b2, b1]
        simp

theorem writeField2_faithful {P : TProtocol σ} {pending : σ → List Token}
    (hF : Faithful P pending) (p : HealthCheckRes) (s : σ) :
    (writeField2 P p s).1 = none ∧
    pending (writeField2 P p s).2
      = pending s ++ [.fieldBegin "msg" STRING 2, .string p.Msg, .fieldEnd] := by
  unfold writeField2
  obtain ⟨a1, b1⟩ := hF.writeFieldBegin "msg" STRING 2 s
  cases h1 : P.WriteFieldBegin "msg" STRING 2 s with
  | mk e1 s1 =>
    rw [h1] at a1 b1
    simp only at a1 b1
    subst a1
    obtain ⟨a2, b2⟩ := hF.writeString p.Msg s1
    cases h2 : P.WriteString p.Msg s1 with
    | mk e2 s2 =>
      rw [h2] at a2 b2
      simp only at a2 b2
      subst a2
      obtain ⟨a3, b3⟩ := hF.writeFieldEnd s2
      cases h3 : P.WriteFieldEnd s2 with
      | mk e3 s3 =>
        rw [h3] at a3 b3
        simp only at a3 b3
        subst a3
        simp only [h2, h3, true_and]
        rw [b3, b2, b1]
        simp

/-- The two fields that `Write` emits for `p`. -/
theorem Write_faithful {P : TProtocol σ} {pending : σ → List Token}
    (hF : Faithful P pending) (p : HealthCheckRes) (s : σ) :
    (Write P p s).1 = none ∧
    pending (Write P p s).2
      = pending s ++ .structBegin "HealthCheckRes" ::
          (encodeFields [⟨"healthy", BOOL, 1, [.bool p.Healthy]⟩,
              ⟨"msg", STRING, 2, [.string p.Msg]⟩]
            ++ .fieldStop :: .structEnd :: []) := by
  unfold Write
  obtain ⟨a1, b1⟩ := hF.writeStructBegin "HealthCheckRes" s
  cases h1 : P.WriteStructBegin "HealthCheckRes" s with
  | mk e1 s1 =>
    rw [h1] at a1 b1
    simp only at a1 b1
    subst a1
    obtain ⟨a2, b2⟩ := writeField1_faithful hF p s1
    cases h2 : writeField1 P p s1 with
    | mk e2 s2 =>
      rw [h2] at a2 b2
      simp only at a2 b2
      subst a2
      obtain ⟨a3, b3⟩ := writeField2_faithful hF p s2
      cases h3 : writeField2 P p s2 with
      | mk e3 s3 =>
        rw [h3] at a3 b3
        simp only at a3 b3
        subst a3
        obtain ⟨a4, b4⟩ := hF.writeFieldStop s3
        cases h4 : P.WriteFieldStop s3 with
        | mk e4 s4 =>
          rw [h4] at a4 b4
          simp only at a4 b4
          subst a4
          obtain ⟨a5, b5⟩ := hF.writeStructEnd s4
          cases h5 : P.WriteStructEnd s4 with
          | mk e5 s5 =>
            rw [h5] at a5 b5
            simp only at a5 b5
            subst a5
            simp only [h2, h3, h4, h5, true_and]
            rw [b5, b4, b3, b2, b1]
            simp [encodeFields, encodeField]

theorem readFields_stream {P : TProtocol σ} {pending : σ → List Token}
    (hF : Faithful P pending) :
    ∀ (fs : List Field), (∀ f ∈ fs, WellFormedField P pending f) →
    ∀ (fuel : Nat) (p : HealthCheckRes) (s : σ) (rest : List Token), fs.length < fuel →
      pending s = encodeFields fs ++ .fieldStop :: rest →
      ∃ s', readFields P fuel p s
          = some (⟨healthyAfter p.Healthy fs, msgAfter p.Msg fs⟩, none, s') ∧
        pending s' = rest := by
  intro fs
  induction fs with
  | nil =>
    intro _ fuel p s rest hfuel hs
    cases fuel with
    | zero => exact absurd hfuel (Nat.not_lt_zero _)
    | succ fuel =>
      simp only [encodeFields, List.nil_append] at hs
      obtain ⟨a, b, c⟩ := hF.readFieldStop s rest hs
      unfold readFields
      cases h : P.ReadFieldBegin s with
      | mk r s1 =>
        obtain ⟨nm, ty, id, err⟩ := r
        rw [h] at a b c
        simp only at a b c
        subst a b
        exact ⟨s1, by simp [healthyAfter, msgAfter], c⟩
  | cons f fs ih =>
    intro hwf fuel p s rest hfuel hs
    cases fuel with
    | zero => exact absurd hfuel (Nat.not_lt_zero _)
    | succ fuel =>
      have hfuel2 : fs.length < fuel := by
        simp only [List.length_cons] at hfuel; omega
      obtain ⟨hstop, hid1, hid2, hskip⟩ := hwf f (List.mem_cons_self _ _)
      have hwf2 : ∀ g ∈ fs, WellFormedField P pending g :=
        fun g hg => hwf g (List.mem_cons_of_mem _ hg)
      have hs2 : pending s = .fieldBegin f.name f.typeId f.id ::
          (f.value ++ .fieldEnd :: (encodeFields fs ++ .fieldStop :: rest)) := by
        rw [hs]; simp [encodeFields, encodeField]
      obtain ⟨a, b⟩ := hF.readFieldBegin s f.name f.typeId f.id _ hs2
      unfold readFields
      cases h : P.ReadFieldBegin s with
      | mk r s1 =>
        obtain ⟨nm, ty, id, err⟩ := r
        rw [h] at a b
        simp only [Prod.mk.injEq] at a b
        obtain ⟨hty, hid, herr⟩ := a
        subst hty hid herr
        simp only [if_neg hstop]
        by_cases h1 : f.id = 1
        · obtain ⟨bv, hv⟩ := hid1 h1
          rw [hv] at b
          obtain ⟨a2, b2⟩ := hF.readBool s1 bv _ b
          cases hr : P.ReadBool s1 with
          | mk r2 s2 =>
            rw [hr] at a2 b2
            simp only at a2 b2
            subst a2
            obtain ⟨a3, b3⟩ := hF.readFieldEnd s2 _ b2
            cases hr3 : P.ReadFieldEnd s2 with
            | mk e3 s3 =>
              rw [hr3] at a3 b3
              simp only at a3 b3
              subst a3
              obtain ⟨s', hres, hpend⟩ := ih hwf2 fuel { p with Healthy := bv } s3 rest hfuel2 b3
              refine ⟨s', ?_, hpend⟩
              simp only [if_pos h1, ReadField1, hr, hr3, hres]
              simp [healthyAfter, msgAfter, h1, hv]
        · by_cases h2 : f.id = 2
          · obtain ⟨sv, hv⟩ := hid2 h2
            rw [hv] at b
            obtain ⟨a2, b2⟩ := hF.readString s1 sv _ b
            cases hr : P.ReadString s1 with
            | mk r2 s2 =>
              rw [hr] at a2 b2
              simp only at a2 b2
              subst a2
              obtain ⟨a3, b3⟩ := hF.readFieldEnd s2 _ b2
              cases hr3 : P.ReadFieldEnd s2 with
              | mk e3 s3 =>
                rw [hr3] at a3 b3
                simp only at a3 b3
                subst a3
                obtain ⟨s', hres, hpend⟩ := ih hwf2 fuel { p with Msg := sv } s3 rest hfuel2 b3
                refine ⟨s', ?_, hpend⟩
                simp only [if_neg h1, if_pos h2, ReadField2, hr, hr3, hres]
                simp [healthyAfter, msgAfter, h1, h2, hv]
          · obtain ⟨a2, b2⟩ := hskip h1 h2 s1 _ b
            cases hr : P.Skip f.typeId s1 with
            | mk e2 s2 =>
              rw [hr] at a2 b2
              simp only at a2 b2
              subst a2
              obtain ⟨a3, b3⟩ := hF.readFieldEnd s2 _ b2
              cases hr3 : P.ReadFieldEnd s2 with
              | mk e3 s3 =>
                rw [hr3] at a3 b3
                simp only at a3 b3
                subst a3
                obtain ⟨s', hres, hpend⟩ := ih hwf2 fuel p s3 rest hfuel2 b3
                refine ⟨s', ?_, hpend⟩
                simp only [if_neg h1, if_neg h2, hr, hr3, hres]
                simp [healthyAfter, msgAfter, h1, h2]

theorem Read_stream {P : TProtocol σ} {pending : σ → List Token}
    (hF : Faithful P pending) (fs : List Field) (hwf : ∀ f ∈ fs, WellFormedField P pending f)
    (fuel : Nat) (p : HealthCheckRes) (s : σ) (name : String) (rest : List Token)
    (hfuel : fs.length < fuel)
    (hs : pending s = .structBegin name :: (encodeFields fs ++ .fieldStop :: .structEnd :: rest)) :
    ∃ s', Read P fuel p s
        = some (⟨healthyAfter p.Healthy fs, msgAfter p.Msg fs⟩, none, s') ∧
      pending s' = rest := by
  obtain ⟨a, b⟩ := hF.readStructBegin s name _ hs
  unfold Read
  cases h : P.ReadStructBegin s with
  | mk r s1 =>
    obtain ⟨nm, err⟩ := r
    rw [h] at a b
    simp only at a b
    subst a
    obtain ⟨s2, hres, hpend⟩ := readFields_stream hF fs hwf fuel p s1 _ hfuel b
    obtain ⟨a3, b3⟩ := hF.readStructEnd s2 rest hpend
    cases h3 : P.ReadStructEnd s2 with
    | mk e3 s3 =>
      rw [h3] at a3 b3
      simp only at a3 b3
      subst a3
      exact ⟨s3, by simp only [hres, h3], b3⟩

theorem healthyAfter_filter (fs : List Field) : ∀ h : Bool,
    healthyAfter h (fs.filter (fun f => decide (f.id = 1))) = healthyAfter h fs := by
  induction fs with
  | nil => intro h; rfl
  | cons f fs ih =>
    intro h
    by_cases h1 : f.id = 1
    · simp [List.filter_cons, h1, healthyAfter, ih]
    · simp [List.filter_cons, h1, healthyAfter, ih]

theorem msgAfter_filter (fs : List Field) : ∀ m : String,
    msgAfter m (fs.filter (fun f => decide (f.id = 2))) = msgAfter m fs := by
  induction fs with
  | nil => intro m; rfl
  | cons f fs ih =>
    intro m
    by_cases h2 : f.id = 2
    · simp [List.filter_cons, h2, msgAfter, ih]
    · simp [List.filter_cons, h2, msgAfter, ih]

theorem healthyAfter_absent (fs : List Field) : ∀ h : Bool, (∀ f ∈ fs, f.id ≠ 1) →
    healthyAfter h fs = h := by
  induction fs with
  | nil => intro h _; rfl
  | cons f fs ih =>
    intro h hab
    have h1 : f.id ≠ 1 := hab f (List.mem_cons_self _ _)
    simp only [healthyAfter, if_neg h1]
    exact ih h (fun g hg => hab g (List.mem_cons_of_mem _ hg))

theorem msgAfter_absent (fs : List Field) : ∀ m : String, (∀ f ∈ fs, f.id ≠ 2) →
    msgAfter m fs = m := by
  induction fs with
  | nil => intro m _; rfl
  | cons f fs ih =>
    intro m hab
    have h2 : f.id ≠ 2 := hab f (List.mem_cons_self _ _)
    simp only [msgAfter, if_neg h2]
    exact ih m (fun g hg => hab g (List.mem_cons_of_mem _ hg))

theorem streamProtocol_faithful : Faithful streamProtocol id where
  writeStructBegin := fun _ _ => ⟨rfl, rfl⟩
  writeStructEnd := fun _ => ⟨rfl, rfl⟩
  writeFieldBegin := fun _ _ _ _ => ⟨rfl, rfl⟩
  writeFieldEnd := fun _ => ⟨rfl, rfl⟩
  writeFieldStop := fun _ => ⟨rfl, rfl⟩
  writeBool := fun _ _ => ⟨rfl, rfl⟩
  writeString := fun _ _ => ⟨rfl, rfl⟩
  readStructBegin := by
    intro s name rest h
    simp only [id] at h
    subst h
    exact ⟨rfl, rfl⟩
  readStructEnd := by
    intro s rest h
    simp only [id] at h
    subst h
    exact ⟨rfl, rfl⟩
  readFieldBegin := by
    intro s name t i rest h
    simp only [id] at h
    subst h
    exact ⟨rfl, rfl⟩
  readFieldStop := by
    intro s rest h
    simp only [id] at h
    subst h
    exact ⟨rfl, rfl, rfl⟩
  readFieldEnd := by
    intro s rest h
    simp only [id] at h
    subst h
    exact ⟨rfl, rfl⟩
  readBool := by
    intro s v rest h
    simp only [id] at h
    subst h
    exact ⟨rfl, rfl⟩
  readString := by
    intro s v rest h
    simp only [id] at h
    subst h
    exact ⟨rfl, rfl⟩

/-- C7 (round trip of `HealthCheckRes`). On a faithful protocol with nothing pending,
`Write` of any `p` succeeds, and `Read` of the written stream into any `q`, with fuel for
the two fields and the stop field, returns without error and leaves `q` with
`Healthy = p.Healthy` and `Msg = p.Msg`, the stream being consumed. -/
theorem HealthCheckRes_round_trip (P : TProtocol σ) (pending : σ → List Token)
    (hF : Faithful P pending) (s0 : σ) (h0 : pending s0 = []) (p q : HealthCheckRes)
    (fuel : Nat) (hfuel : 3 ≤ fuel) :
    (Write P p s0).1 = none ∧
    ∃ q' s', Read P fuel q (Write P p s0).2 = some (q', none, s') ∧
      q'.Healthy = p.Healthy ∧ q'.Msg = p.Msg ∧ pending s' = [] := by
  obtain ⟨hw, hpend⟩ := Write_faithful hF p s0
  refine ⟨hw, ?_⟩
  rw [h0, List.nil_append] at hpend
  have hwf : ∀ f ∈ [(⟨"healthy", BOOL, 1, [.bool p.Healthy]⟩ : Field),
      ⟨"msg", STRING, 2, [.string p.Msg]⟩], WellFormedField P pending f := by
    intro f hf
    simp only [List.mem_cons, List.mem_singleton, List.not_mem_nil, or_false] at hf
    rcases hf with hf | hf
    · subst hf
      exact ⟨by simp [BOOL, STOP], fun _ => ⟨_, rfl⟩, fun h => absurd h (by simp),
        fun h => absurd rfl h⟩
    · subst hf
      exact ⟨by simp [STRING, STOP], fun h => absurd h (by simp), fun _ => ⟨_, rfl⟩,
        fun _ h => absurd rfl h⟩
  obtain ⟨s', hres, hrest⟩ := Read_stream hF _ hwf fuel q (Write P p s0).2
    "HealthCheckRes" [] (by simpa using hfuel) hpend
  refine ⟨_, s', hres, ?_, ?_, hrest⟩
  · simp [healthyAfter]
  · simp [msgAfter]

/-- C7, at a concrete input: the in-memory stream protocol, a healthy result with a
message, read into a stale value. -/
theorem HealthCheckRes_round_trip_witness :
    (Write streamProtocol ⟨true, "ok"⟩ []).1 = none ∧
    ∃ q' s', Read streamProtocol 3 ⟨false, "stale"⟩ (Write streamProtocol ⟨true, "ok"⟩ []).2
        = some (q', none, s') ∧
      q'.Healthy = true ∧ q'.Msg = "ok" ∧ id s' = [] :=
  HealthCheckRes_round_trip streamProtocol id streamProtocol_faithful [] rfl
    ⟨true, "ok"⟩ ⟨false, "stale"⟩ 3 (Nat.le_refl 3)

/-- C10 (unknown fields are ignored, only the fields present are touched). On a faithful
protocol whose pending stream is a struct of well-formed fields `fs`, a STOP field, the
struct end and then anything (`rest`), `Read` with fuel for the fields returns without
error having consumed exactly up to the struct end after the first STOP. `Healthy` ends
as the value of the last field with id 1 and `Msg` as that of the last field with id 2;
the fields with other ids, which are skipped by their wire type, have no influence
(dropping them from `fs` gives the same values); when no field has id 1 `Healthy` keeps
its value from before `Read`, and when no field has id 2 `Msg` does. -/
theorem Read_ignores_unknown_fields (P : TProtocol σ) (pending : σ → List Token)
    (hF : Faithful P pending) (fs : List Field)
    (hwf : ∀ f ∈ fs, WellFormedField P pending f)
    (p : HealthCheckRes) (s : σ) (name : String) (rest : List Token)
    (fuel : Nat) (hfuel : fs.length < fuel)
    (hs : pending s = .structBegin name :: (encodeFields fs ++ .fieldStop :: .structEnd :: rest)) :
    ∃ p' s', Read P fuel p s = some (p', none, s') ∧ pending s' = rest ∧
      p'.Healthy = healthyAfter p.Healthy fs ∧ p'.Msg = msgAfter p.Msg fs ∧
      p'.Healthy = healthyAfter p.Healthy (fs.filter (fun f => decide (f.id = 1))) ∧
      p'.Msg = msgAfter p.Msg (fs.filter (fun f => decide (f.id = 2))) ∧
      ((∀ f ∈ fs, f.id ≠ 1) → p'.Healthy = p.Healthy) ∧
      ((∀ f ∈ fs, f.id ≠ 2) → p'.Msg = p.Msg) := by
  obtain ⟨s', hres, hrest⟩ := Read_stream hF fs hwf fuel p s name rest hfuel hs
  exact ⟨_, s', hres, hrest, rfl, rfl, (healthyAfter_filter fs _).symm,
    (msgAfter_filter fs _).symm, healthyAfter_absent fs _, msgAfter_absent fs _⟩

/-- C10, at a concrete input: an unknown bool field with id 5, then field 2, then STOP and
the struct end, followed by a further bool that must stay unread. `Healthy` keeps its
value, `Msg` is that of field 2, and the trailing bool is still pending. -/
theorem Read_ignores_unknown_fields_witness :
    ∃ p' s', Read streamProtocol 3 ⟨true, "before"⟩
        [.structBegin "HealthCheckRes", .fieldBegin "extra" BOOL 5, .bool false, .fieldEnd,
          .fieldBegin "msg" STRING 2, .string "after", .fieldEnd, .fieldStop, .structEnd,
          .bool true] = some (p', none, s') ∧ s' = [.bool true] ∧
      p'.Healthy = true ∧ p'.Msg = "after" :=
  match Read_ignores_unknown_fields streamProtocol id streamProtocol_faithful
    [⟨"extra", BOOL, 5, [.bool false]⟩, ⟨"msg", STRING, 2, [.string "after"]⟩]
    (by
      intro f hf
      simp only [List.mem_cons, List.mem_singleton, List.not_mem_nil, or_false] at hf
      rcases hf with hf | hf
      · subst hf
        refine ⟨by decide, fun h => absurd h (by decide), fun h => absurd h (by decide), ?_⟩
        intro _ _ s rest hs
        simp only [id] at hs
        subst hs
        exact ⟨rfl, rfl⟩
      · subst hf
        exact ⟨by decide, fun h => absurd h (by decide), fun _ => ⟨_, rfl⟩,
          fun _ h => absurd rfl h⟩)
    ⟨true, "before"⟩
    [.structBegin "HealthCheckRes", .fieldBegin "extra" BOOL 5, .bool false, .fieldEnd,
      .fieldBegin "msg" STRING 2, .string "after", .fieldEnd, .fieldStop, .structEnd,
      .bool true]
    "HealthCheckRes" [.bool true] 3 (by decide) rfl with
  | ⟨p', s', h1, h2, h3, h4, _⟩ => ⟨p', s', h1, h2, h3.trans rfl, h4.trans rfl⟩

end Codec

end ThriftGen
